import Mathlib

/-! # Linear-algebra core and camera of the ComputerGraphics engine

A shallow embedding of `Vector3.cpp`, `Matrix3.cpp`, `Matrix4.cpp`,
`Transform.cpp` and `Camera.cpp`.

* The C++ `float`/`double` scalars are read as elements of an arbitrary field
  `F` (exact arithmetic).  Every definition is computable for a computable
  field such as `ℚ`; the theorems that need square roots are stated over `ℝ`.
* The `<math.h>` functions the code calls (`sqrt`, `cos`, `sin`, `tan`) and the
  constant `M_PI` are passed in as arguments, so that the same definition can be
  run over `ℚ` and reasoned about over `ℝ` with `Real.sqrt`, `Real.cos`, ...
* A C++ member function that mutates `*this` becomes a function from the old
  object to the new one; its first explicit argument of the class type is `this`.
-/

namespace ComputerGraphics

/-! ## Vector3.cpp -/

/-- Modelled from the spec: the class `Vector3`, whose declaration (`Vector3.hpp`)
is not among the sources: three floats, named `m_x`, `m_y`, `m_z` as
`Vector3.cpp` uses them. -/
@[ext]
structure Vector3 (F : Type) where
  m_x : F
  m_y : F
  m_z : F
deriving DecidableEq

namespace Vector3

variable {F : Type} [Field F]

/-- The constructor `Vector3 (float xyz)`. -/
def splat (xyz : F) : Vector3 F := ⟨xyz, xyz, xyz⟩

/-- The default constructor `Vector3 ()`: all coefficients are zero. -/
def zero : Vector3 F := splat 0

/-- The member `Vector3::dot`. -/
def dot (a v : Vector3 F) : F :=
  a.m_x * v.m_x + a.m_y * v.m_y + a.m_z * v.m_z

/-- The member `Vector3::cross`. -/
def cross (a v : Vector3 F) : Vector3 F :=
  ⟨a.m_y * v.m_z - v.m_y * a.m_z,
   -(a.m_x * v.m_z - v.m_x * a.m_z),
   a.m_x * v.m_y - v.m_x * a.m_y⟩

/-- The member `Vector3::length`. -/
def length (sqrt : F → F) (a : Vector3 F) : F :=
  sqrt (a.m_x * a.m_x + a.m_y * a.m_y + a.m_z * a.m_z)

/-- The member `Vector3::normalize`; there is no guard against a zero length. -/
def normalize (sqrt : F → F) (a : Vector3 F) : Vector3 F :=
  let length := sqrt (a.m_x * a.m_x + a.m_y * a.m_y + a.m_z * a.m_z)
  ⟨a.m_x / length, a.m_y / length, a.m_z / length⟩

/-- The member `Vector3::operator+=`. -/
def addAssign (a v : Vector3 F) : Vector3 F :=
  ⟨a.m_x + v.m_x, a.m_y + v.m_y, a.m_z + v.m_z⟩

/-- The free `operator+ (v1, v2)`: a copy of `v1`, then `+=`. -/
def add (v1 v2 : Vector3 F) : Vector3 F :=
  let temp := v1
  temp.addAssign v2

/-- The free unary `operator- (v)`. -/
def neg (v : Vector3 F) : Vector3 F := ⟨-v.m_x, -v.m_y, -v.m_z⟩

/-- The free `operator* (float s, const Vector3& v)`. -/
def smul (s : F) (v : Vector3 F) : Vector3 F :=
  ⟨s * v.m_x, s * v.m_y, s * v.m_z⟩

/-- The free `operator/ (const Vector3& v, float s)`. -/
def div (v : Vector3 F) (s : F) : Vector3 F :=
  ⟨v.m_x / s, v.m_y / s, v.m_z / s⟩

end Vector3

/-! ## Matrix3.cpp -/

/-- Modelled from the spec: the class `Matrix3`, whose declaration (`Matrix3.hpp`)
is not among the sources: three `Vector3` columns right, up, back, named
`m_right`, `m_up`, `m_back` as `Matrix3.cpp` uses them. -/
@[ext]
structure Matrix3 (F : Type) where
  m_right : Vector3 F
  m_up : Vector3 F
  m_back : Vector3 F
deriving DecidableEq

namespace Matrix3

variable {F : Type} [Field F]

/-- The constructor from nine scalars, `Matrix3 (rx, ry, rz, ux, uy, uz, bx, by, bz)`. -/
def ofScalars (rx ry rz ux uy uz bx by_ bz : F) : Matrix3 F :=
  ⟨⟨rx, ry, rz⟩, ⟨ux, uy, uz⟩, ⟨bx, by_, bz⟩⟩

/-- The default constructor `Matrix3 ()`: the identity matrix. -/
def identity : Matrix3 F := ofScalars 1 0 0 0 1 0 0 0 1

/-- The member `Matrix3::setToIdentity`. -/
def setToIdentity (_this : Matrix3 F) : Matrix3 F :=
  ⟨⟨1, 0, 0⟩, ⟨0, 1, 0⟩, ⟨0, 0, 1⟩⟩

/-- The member `Matrix3::setToZero`. -/
def setToZero (_this : Matrix3 F) : Matrix3 F :=
  ⟨⟨0, 0, 0⟩, ⟨0, 0, 0⟩, ⟨0, 0, 0⟩⟩

/-- The local `Matrix3 rotation(0,0,0)` of `Transform.cpp`: every entry is zero. -/
def zeroInit : Matrix3 F := ⟨Vector3.splat 0, Vector3.splat 0, Vector3.splat 0⟩

/-- The member `Matrix3::determinant`. -/
def determinant (m : Matrix3 F) : F :=
  m.m_right.m_x * (m.m_up.m_y * m.m_back.m_z - m.m_up.m_z * m.m_back.m_y) +
  m.m_right.m_y * (m.m_up.m_z * m.m_back.m_x - m.m_up.m_x * m.m_back.m_z) +
  m.m_right.m_z * (m.m_up.m_x * m.m_back.m_y - m.m_up.m_y * m.m_back.m_x)

/-- The member `Matrix3::invert`: returns early, leaving the matrix alone, when
the determinant is `0`. -/
def invert [DecidableEq F] (m : Matrix3 F) : Matrix3 F :=
  let d := m.determinant
  if d = 0 then m
  else
    let rightx := (m.m_up.m_y * m.m_back.m_z - m.m_back.m_y * m.m_up.m_z) / d
    let righty := (m.m_right.m_z * m.m_back.m_y - m.m_right.m_y * m.m_back.m_z) / d
    let rightz := (m.m_right.m_y * m.m_up.m_z - m.m_right.m_z * m.m_up.m_y) / d
    let upx := (m.m_up.m_z * m.m_back.m_x - m.m_up.m_x * m.m_back.m_z) / d
    let upy := (m.m_right.m_x * m.m_back.m_z - m.m_right.m_z * m.m_back.m_x) / d
    let upz := (m.m_up.m_x * m.m_right.m_z - m.m_right.m_x * m.m_up.m_z) / d
    let backx := (m.m_up.m_x * m.m_back.m_y - m.m_back.m_x * m.m_up.m_y) / d
    let backy := (m.m_back.m_x * m.m_right.m_y - m.m_right.m_x * m.m_back.m_y) / d
    let backz := (m.m_right.m_x * m.m_up.m_y - m.m_up.m_x * m.m_right.m_y) / d
    ⟨⟨rightx, righty, rightz⟩, ⟨upx, upy, upz⟩, ⟨backx, backy, backz⟩⟩

/-- The member `Matrix3::transpose`; the diagonal entries are not touched. -/
def transpose (m : Matrix3 F) : Matrix3 F :=
  let upx := m.m_right.m_y
  let upz := m.m_back.m_y
  let righty := m.m_up.m_x
  let rightz := m.m_back.m_x
  let backx := m.m_right.m_z
  let backy := m.m_up.m_z
  ⟨⟨m.m_right.m_x, righty, rightz⟩, ⟨upx, m.m_up.m_y, upz⟩, ⟨backx, backy, m.m_back.m_z⟩⟩

/-- The member `Matrix3::invertRotation`: a transpose. -/
def invertRotation (m : Matrix3 F) : Matrix3 F := m.transpose

/-- The member `Matrix3::orthonormalize`. -/
def orthonormalize (sqrt : F → F) (m : Matrix3 F) : Matrix3 F :=
  let m_back := m.m_back.normalize sqrt
  let m_right := m.m_up.cross m_back
  let m_right := m_right.normalize sqrt
  let m_up := m_back.cross m_right
  let m_up := m_up.normalize sqrt
  ⟨m_right, m_up, m_back⟩

/-- The constructor `Matrix3 (up, back, makeOrthonormal)`. -/
def ofUpBack (sqrt : F → F) (up back : Vector3 F) (makeOrthonormal : Bool) : Matrix3 F :=
  let m : Matrix3 F := ⟨up.cross back, up, back⟩
  if makeOrthonormal = true then m.orthonormalize sqrt else m

/-- The member `Matrix3::transform`, computing `*this * v`. -/
def transform (m : Matrix3 F) (v : Vector3 F) : Vector3 F :=
  ⟨m.m_right.m_x * v.m_x + m.m_up.m_x * v.m_y + m.m_back.m_x * v.m_z,
   m.m_right.m_y * v.m_x + m.m_up.m_y * v.m_y + m.m_back.m_y * v.m_z,
   m.m_right.m_z * v.m_x + m.m_up.m_z * v.m_y + m.m_back.m_z * v.m_z⟩

/-- The member `Matrix3::operator*= (const Matrix3& m)`; `a` is `*this`. -/
def mulAssign (a m : Matrix3 F) : Matrix3 F :=
  let rx := a.m_right.m_x * m.m_right.m_x + a.m_up.m_x * m.m_right.m_y + a.m_back.m_x * m.m_right.m_z
  let ry := a.m_right.m_y * m.m_right.m_x + a.m_up.m_y * m.m_right.m_y + a.m_back.m_y * m.m_right.m_z
  let rz := a.m_right.m_z * m.m_right.m_x + a.m_up.m_z * m.m_right.m_y + a.m_back.m_z * m.m_right.m_z
  let ux := a.m_right.m_x * m.m_up.m_x + a.m_up.m_x * m.m_up.m_y + a.m_back.m_x * m.m_up.m_z
  let uy := a.m_right.m_y * m.m_up.m_x + a.m_up.m_y * m.m_up.m_y + a.m_back.m_y * m.m_up.m_z
  let uz := a.m_right.m_z * m.m_up.m_x + a.m_up.m_z * m.m_up.m_y + a.m_back.m_z * m.m_up.m_z
  let bx := a.m_right.m_x * m.m_back.m_x + a.m_up.m_x * m.m_back.m_y + a.m_back.m_x * m.m_back.m_z
  let by_ := a.m_right.m_y * m.m_back.m_x + a.m_up.m_y * m.m_back.m_y + a.m_back.m_y * m.m_back.m_z
  let bz := a.m_right.m_z * m.m_back.m_x + a.m_up.m_z * m.m_back.m_y + a.m_back.m_z * m.m_back.m_z
  ⟨⟨rx, ry, rz⟩, ⟨ux, uy, uz⟩, ⟨bx, by_, bz⟩⟩

/-- The free `operator* (const Matrix3& m1, const Matrix3& m2)`: a copy of `m1`,
then `*=`. -/
def mul (m1 m2 : Matrix3 F) : Matrix3 F :=
  let temp := m1
  temp.mulAssign m2

/-- The free `operator* (const Matrix3& m, const Vector3& v)`: multiplies by the
matrix whose right column is `v` and returns the right column of the product. -/
def mulVec (m : Matrix3 F) (v : Vector3 F) : Vector3 F :=
  let temp := m
  let temp2 : Matrix3 F := ⟨v, ⟨0, 0, 0⟩, ⟨0, 0, 0⟩⟩
  (temp.mulAssign temp2).m_right

/-- The member `Matrix3::setToScale (float scale)`. -/
def setToScale (this : Matrix3 F) (scale : F) : Matrix3 F :=
  let m := this.setToZero
  ⟨⟨scale, m.m_right.m_y, m.m_right.m_z⟩, ⟨m.m_up.m_x, scale, m.m_up.m_z⟩,
   ⟨m.m_back.m_x, m.m_back.m_y, scale⟩⟩

/-- The member `Matrix3::setToScale (float scaleX, float scaleY, float scaleZ)`. -/
def setToScale3 (this : Matrix3 F) (scaleX scaleY scaleZ : F) : Matrix3 F :=
  let m := this.setToZero
  ⟨⟨scaleX, m.m_right.m_y, m.m_right.m_z⟩, ⟨m.m_up.m_x, scaleY, m.m_up.m_z⟩,
   ⟨m.m_back.m_x, m.m_back.m_y, scaleZ⟩⟩

/-- The member `Matrix3::setToRotationX`; `pi` is `M_PI`. -/
def setToRotationX (cos sin : F → F) (pi : F) (this : Matrix3 F) (angleDegrees : F) :
    Matrix3 F :=
  let m := this.setToIdentity
  ⟨m.m_right,
   ⟨m.m_up.m_x, cos (pi * angleDegrees / 180), sin (pi * angleDegrees / 180)⟩,
   ⟨m.m_back.m_x, -sin (pi * angleDegrees / 180), cos (pi * angleDegrees / 180)⟩⟩

/-- The member `Matrix3::setToRotationY`; `pi` is `M_PI`. -/
def setToRotationY (cos sin : F → F) (pi : F) (this : Matrix3 F) (angleDegrees : F) :
    Matrix3 F :=
  let m := this.setToIdentity
  ⟨⟨cos (pi * angleDegrees / 180), m.m_right.m_y, -sin (pi * angleDegrees / 180)⟩,
   m.m_up,
   ⟨sin (pi * angleDegrees / 180), m.m_back.m_y, cos (pi * angleDegrees / 180)⟩⟩

/-- The member `Matrix3::setToRotationZ`; `pi` is `M_PI`. -/
def setToRotationZ (cos sin : F → F) (pi : F) (this : Matrix3 F) (angleDegrees : F) :
    Matrix3 F :=
  let m := this.setToIdentity
  ⟨⟨cos (pi * angleDegrees / 180), sin (pi * angleDegrees / 180), m.m_right.m_z⟩,
   ⟨-sin (pi * angleDegrees / 180), cos (pi * angleDegrees / 180), m.m_up.m_z⟩,
   m.m_back⟩

/-- The member `Matrix3::setFromAngleAxis`: the axis is copied and normalised,
then all nine entries are assigned; `pi` is `M_PI`. -/
def setFromAngleAxis (sqrt cos sin : F → F) (pi : F) (_this : Matrix3 F)
    (angleDegrees : F) (axis : Vector3 F) : Matrix3 F :=
  let axis1 := axis
  let axis1 := axis1.normalize sqrt
  let temprx := axis1.m_x * axis1.m_x * (1 - cos (pi * angleDegrees / 180)) + cos (pi * angleDegrees / 180)
  let tempry := axis1.m_x * axis1.m_y * (1 - cos (pi * angleDegrees / 180)) + axis1.m_z * sin (pi * angleDegrees / 180)
  let temprz := axis1.m_x * axis1.m_z * (1 - cos (pi * angleDegrees / 180)) - axis1.m_y * sin (pi * angleDegrees / 180)
  let tempux := axis1.m_x * axis1.m_y * (1 - cos (pi * angleDegrees / 180)) - axis1.m_z * sin (pi * angleDegrees / 180)
  let tempuy := axis1.m_y * axis1.m_y * (1 - cos (pi * angleDegrees / 180)) + cos (pi * angleDegrees / 180)
  let tempuz := axis1.m_y * axis1.m_z * (1 - cos (pi * angleDegrees / 180)) + axis1.m_x * sin (pi * angleDegrees / 180)
  let tempbx := axis1.m_x * axis1.m_z * (1 - cos (pi * angleDegrees / 180)) + axis1.m_y * sin (pi * angleDegrees / 180)
  let tempby := axis1.m_y * axis1.m_z * (1 - cos (pi * angleDegrees / 180)) - axis1.m_x * sin (pi * angleDegrees / 180)
  let tempbz := axis1.m_z * axis1.m_z * (1 - cos (pi * angleDegrees / 180)) + cos (pi * angleDegrees / 180)
  ⟨⟨temprx, tempry, temprz⟩, ⟨tempux, tempuy, tempuz⟩, ⟨tempbx, tempby, tempbz⟩⟩

end Matrix3

/-! ## Matrix4.cpp -/

/-- Modelled from the spec: the class `Vector4`, whose declaration is not among
the sources: four floats, named `m_x`, `m_y`, `m_z`, `m_w` as `Matrix4.cpp` uses
them. -/
@[ext]
structure Vector4 (F : Type) where
  m_x : F
  m_y : F
  m_z : F
  m_w : F
deriving DecidableEq

/-- Modelled from the spec: the class `Matrix4`, whose declaration (`Matrix4.hpp`)
is not among the sources: four `Vector4` columns right, up, back, translation,
named `m_right`, `m_up`, `m_back`, `m_translation` as `Matrix4.cpp` uses them. -/
@[ext]
structure Matrix4 (F : Type) where
  m_right : Vector4 F
  m_up : Vector4 F
  m_back : Vector4 F
  m_translation : Vector4 F
deriving DecidableEq

namespace Matrix4

variable {F : Type} [Field F]

/-- The default constructor `Matrix4 ()`: the identity matrix. -/
def identity : Matrix4 F := ⟨⟨1, 0, 0, 0⟩, ⟨0, 1, 0, 0⟩, ⟨0, 0, 1, 0⟩, ⟨0, 0, 0, 1⟩⟩

/-- The symmetric `Matrix4::setToPerspectiveProjection (fovYDegrees, aspectRatio,
nearPlaneZ, farPlaneZ)`; all sixteen entries are assigned. -/
def setToPerspectiveProjection (tan : F → F) (pi : F) (_this : Matrix4 F)
    (fovYDegrees aspectRatio nearPlaneZ farPlaneZ : F) : Matrix4 F :=
  ⟨⟨1 / (aspectRatio * tan ((fovYDegrees * pi / 180) / 2)), 0, 0, 0⟩,
   ⟨0, 1 / tan ((fovYDegrees * pi / 180) / 2), 0, 0⟩,
   ⟨0, 0, (nearPlaneZ + farPlaneZ) / (nearPlaneZ - farPlaneZ), -1⟩,
   ⟨0, 0, (2 * farPlaneZ * nearPlaneZ) / (nearPlaneZ - farPlaneZ), 0⟩⟩

/-- The asymmetric `Matrix4::setToPerspectiveProjection (left, right, bottom, top,
nearPlaneZ, farPlaneZ)`. -/
def setToPerspectiveProjectionAsymmetric (_this : Matrix4 F)
    (left right bottom top nearPlaneZ farPlaneZ : F) : Matrix4 F :=
  ⟨⟨(2 * nearPlaneZ) / (right - left), 0, 0, 0⟩,
   ⟨0, (2 * nearPlaneZ) / (top - bottom), 0, 0⟩,
   ⟨(right + left) / (right - left), (top + bottom) / (top - bottom),
    (nearPlaneZ + farPlaneZ) / (nearPlaneZ - farPlaneZ), -1⟩,
   ⟨0, 0, (2 * farPlaneZ * nearPlaneZ) / (nearPlaneZ - farPlaneZ), 0⟩⟩

/-- The member `Matrix4::setToOrthographicProjection`. -/
def setToOrthographicProjection (_this : Matrix4 F)
    (left right bottom top nearPlaneZ farPlaneZ : F) : Matrix4 F :=
  ⟨⟨2 / (right - left), 0, 0, 0⟩,
   ⟨0, 2 / (top - bottom), 0, 0⟩,
   ⟨0, 0, 2 / (nearPlaneZ - farPlaneZ), 0⟩,
   ⟨-(right + left) / (right - left), -(top + bottom) / (top - bottom),
    (nearPlaneZ + farPlaneZ) / (nearPlaneZ - farPlaneZ), 1⟩⟩

end Matrix4

/-! ## Transform.cpp -/

/-- Modelled from the spec: the class `Transform`, whose declaration
(`Transform.hpp`) is not among the sources: a `Matrix3` `m_rotScale` and a
`Vector3` `m_position`, jointly the affine map `x ↦ m_rotScale · x + m_position`. -/
@[ext]
structure Transform (F : Type) where
  m_rotScale : Matrix3 F
  m_position : Vector3 F
deriving DecidableEq

namespace Transform

variable {F : Type} [Field F]

/-- The default constructor `Transform ()`: the identity transform. -/
def identity : Transform F := ⟨Matrix3.identity, ⟨0, 0, 0⟩⟩

/-- The member `Transform::getPosition`. -/
def getPosition (t : Transform F) : Vector3 F := t.m_position

/-- The member `Transform::setPosition (const Vector3&)`. -/
def setPosition (t : Transform F) (position : Vector3 F) : Transform F :=
  ⟨t.m_rotScale, position⟩

/-- The member `Transform::getRight`. -/
def getRight (t : Transform F) : Vector3 F := t.m_rotScale.m_right

/-- The member `Transform::getUp`. -/
def getUp (t : Transform F) : Vector3 F := t.m_rotScale.m_up

/-- The member `Transform::getBack`. -/
def getBack (t : Transform F) : Vector3 F := t.m_rotScale.m_back

/-- The member `Transform::getOrientation`. -/
def getOrientation (t : Transform F) : Matrix3 F := t.m_rotScale

/-- The member `Transform::setOrientation (const Matrix3&)`. -/
def setOrientation (t : Transform F) (orientation : Matrix3 F) : Transform F :=
  ⟨orientation, t.m_position⟩

/-- The member `Transform::moveRight`. -/
def moveRight (t : Transform F) (distance : F) : Transform F :=
  ⟨t.m_rotScale, t.m_position.addAssign (Vector3.smul distance t.m_rotScale.m_right)⟩

/-- The member `Transform::moveUp`. -/
def moveUp (t : Transform F) (distance : F) : Transform F :=
  ⟨t.m_rotScale, t.m_position.addAssign (Vector3.smul distance t.m_rotScale.m_up)⟩

/-- The member `Transform::moveBack`. -/
def moveBack (t : Transform F) (distance : F) : Transform F :=
  ⟨t.m_rotScale, t.m_position.addAssign (Vector3.smul distance t.m_rotScale.m_back)⟩

/-- The member `Transform::pitch`. -/
def pitch (cos sin : F → F) (pi : F) (t : Transform F) (angleDegrees : F) : Transform F :=
  let rotation : Matrix3 F := Matrix3.zeroInit
  let rotation := rotation.setToRotationX cos sin pi angleDegrees
  ⟨t.m_rotScale.mulAssign rotation, t.m_position⟩

/-- The member `Transform::yaw`. -/
def yaw (cos sin : F → F) (pi : F) (t : Transform F) (angleDegrees : F) : Transform F :=
  let rotation : Matrix3 F := Matrix3.zeroInit
  let rotation := rotation.setToRotationY cos sin pi angleDegrees
  ⟨t.m_rotScale.mulAssign rotation, t.m_position⟩

/-- The member `Transform::roll`. -/
def roll (cos sin : F → F) (pi : F) (t : Transform F) (angleDegrees : F) : Transform F :=
  let rotation : Matrix3 F := Matrix3.zeroInit
  let rotation := rotation.setToRotationZ cos sin pi angleDegrees
  ⟨t.m_rotScale.mulAssign rotation, t.m_position⟩

/-- The member `Transform::invertRt`: the rotation is inverted first, and the
new position is computed with the already inverted rotation. -/
def invertRt (t : Transform F) : Transform F :=
  let m_rotScale := t.m_rotScale.invertRotation
  let m_position := m_rotScale.mulVec (Vector3.smul (-1) t.m_position)
  ⟨m_rotScale, m_position⟩

/-- The member `Transform::combine`; `a` is `*this`. -/
def combine (a t : Transform F) : Transform F :=
  let rx := a.m_rotScale.m_right.m_x * t.getRight.m_x + a.m_rotScale.m_up.m_x * t.getRight.m_y + a.m_rotScale.m_back.m_x * t.getRight.m_z
  let ry := a.m_rotScale.m_right.m_y * t.getRight.m_x + a.m_rotScale.m_up.m_y * t.getRight.m_y + a.m_rotScale.m_back.m_y * t.getRight.m_z
  let rz := a.m_rotScale.m_right.m_z * t.getRight.m_x + a.m_rotScale.m_up.m_z * t.getRight.m_y + a.m_rotScale.m_back.m_z * t.getRight.m_z
  let ux := a.m_rotScale.m_right.m_x * t.getUp.m_x + a.m_rotScale.m_up.m_x * t.getUp.m_y + a.m_rotScale.m_back.m_x * t.getUp.m_z
  let uy := a.m_rotScale.m_right.m_y * t.getUp.m_x + a.m_rotScale.m_up.m_y * t.getUp.m_y + a.m_rotScale.m_back.m_y * t.getUp.m_z
  let uz := a.m_rotScale.m_right.m_z * t.getUp.m_x + a.m_rotScale.m_up.m_z * t.getUp.m_y + a.m_rotScale.m_back.m_z * t.getUp.m_z
  let bx := a.m_rotScale.m_right.m_x * t.getBack.m_x + a.m_rotScale.m_up.m_x * t.getBack.m_y + a.m_rotScale.m_back.m_x * t.getBack.m_z
  let by_ := a.m_rotScale.m_right.m_y * t.getBack.m_x + a.m_rotScale.m_up.m_y * t.getBack.m_y + a.m_rotScale.m_back.m_y * t.getBack.m_z
  let bz := a.m_rotScale.m_right.m_z * t.getBack.m_x + a.m_rotScale.m_up.m_z * t.getBack.m_y + a.m_rotScale.m_back.m_z * t.getBack.m_z
  let tx := a.m_rotScale.m_right.m_x * t.getPosition.m_x + a.m_rotScale.m_up.m_x * t.getPosition.m_y + a.m_rotScale.m_back.m_x * t.getPosition.m_z + a.m_position.m_x
  let ty := a.m_rotScale.m_right.m_y * t.getPosition.m_x + a.m_rotScale.m_up.m_y * t.getPosition.m_y + a.m_rotScale.m_back.m_y * t.getPosition.m_z + a.m_position.m_y
  let tz := a.m_rotScale.m_right.m_z * t.getPosition.m_x + a.m_rotScale.m_up.m_z * t.getPosition.m_y + a.m_rotScale.m_back.m_z * t.getPosition.m_z + a.m_position.m_z
  ⟨⟨⟨rx, ry, rz⟩, ⟨ux, uy, uz⟩, ⟨bx, by_, bz⟩⟩, ⟨tx, ty, tz⟩⟩

/-- The free `operator* (const Transform& t1, const Transform& t2)`. -/
def mul (t1 t2 : Transform F) : Transform F :=
  let rx := t1.getRight.m_x * t2.getRight.m_x + t1.getUp.m_x * t2.getRight.m_y + t1.getBack.m_x * t2.getRight.m_z
  let ry := t1.getRight.m_y * t2.getRight.m_x + t1.getUp.m_y * t2.getRight.m_y + t1.getBack.m_y * t2.getRight.m_z
  let rz := t1.getRight.m_z * t2.getRight.m_x + t1.getUp.m_z * t2.getRight.m_y + t1.getBack.m_z * t2.getRight.m_z
  let ux := t1.getRight.m_x * t2.getUp.m_x + t1.getUp.m_x * t2.getUp.m_y + t1.getBack.m_x * t2.getUp.m_z
  let uy := t1.getRight.m_y * t2.getUp.m_x + t1.getUp.m_y * t2.getUp.m_y + t1.getBack.m_y * t2.getUp.m_z
  let uz := t1.getRight.m_z * t2.getUp.m_x + t1.getUp.m_z * t2.getUp.m_y + t1.getBack.m_z * t2.getUp.m_z
  let bx := t1.getRight.m_x * t2.getBack.m_x + t1.getUp.m_x * t2.getBack.m_y + t1.getBack.m_x * t2.getBack.m_z
  let by_ := t1.getRight.m_y * t2.getBack.m_x + t1.getUp.m_y * t2.getBack.m_y + t1.getBack.m_y * t2.getBack.m_z
  let bz := t1.getRight.m_z * t2.getBack.m_x + t1.getUp.m_z * t2.getBack.m_y + t1.getBack.m_z * t2.getBack.m_z
  let tx := t1.getRight.m_x * t2.getPosition.m_x + t1.getUp.m_x * t2.getPosition.m_y + t1.getBack.m_x * t2.getPosition.m_z + t1.getPosition.m_x
  let ty := t1.getRight.m_y * t2.getPosition.m_x + t1.getUp.m_y * t2.getPosition.m_y + t1.getBack.m_y * t2.getPosition.m_z + t1.getPosition.m_y
  let tz := t1.getRight.m_z * t2.getPosition.m_x + t1.getUp.m_z * t2.getPosition.m_y + t1.getBack.m_z * t2.getPosition.m_z + t1.getPosition.m_z
  ⟨Matrix3.ofScalars rx ry rz ux uy uz bx by_ bz, ⟨tx, ty, tz⟩⟩

/-- The member `Transform::rotateLocal`. -/
def rotateLocal (sqrt cos sin : F → F) (pi : F) (t : Transform F) (angleDegrees : F)
    (axis : Vector3 F) : Transform F :=
  let rotation : Matrix3 F := Matrix3.zeroInit
  let rotation := rotation.setFromAngleAxis sqrt cos sin pi angleDegrees axis
  ⟨t.m_rotScale.mul rotation, t.m_position⟩

/-- The member `Transform::alignWithWorldY`. -/
def alignWithWorldY (sqrt : F → F) (t : Transform F) : Transform F :=
  let m : Matrix3 F := ⟨t.m_rotScale.m_right, ⟨0, 1, 0⟩, t.m_rotScale.m_back⟩
  let normback := m.m_right.cross m.m_up
  let normback := normback.normalize sqrt
  let m : Matrix3 F := ⟨m.m_right, m.m_up, normback⟩
  let m : Matrix3 F := ⟨m.m_up.cross m.m_back, m.m_up, m.m_back⟩
  ⟨m, t.m_position⟩

/-- The member `Transform::rotateWorld`. -/
def rotateWorld (sqrt cos sin : F → F) (pi : F) (t : Transform F) (angleDegrees : F)
    (axis : Vector3 F) : Transform F :=
  let rotation : Matrix3 F := Matrix3.zeroInit
  let rotation := rotation.setFromAngleAxis sqrt cos sin pi angleDegrees axis
  let m_rotScale := rotation.mul t.m_rotScale
  let m_position := rotation.mulVec t.m_position
  ⟨m_rotScale, m_position⟩

/-- The member `Transform::scaleLocal (float scale)`. -/
def scaleLocal (t : Transform F) (scale : F) : Transform F :=
  let rotation : Matrix3 F := Matrix3.zeroInit
  let rotation := rotation.setToScale scale
  ⟨t.m_rotScale.mul rotation, t.m_position⟩

/-- The member `Transform::scaleLocal (float scaleX, float scaleY, float scaleZ)`. -/
def scaleLocal3 (t : Transform F) (scaleX scaleY scaleZ : F) : Transform F :=
  let rotation : Matrix3 F := Matrix3.zeroInit
  let rotation := rotation.setToScale3 scaleX scaleY scaleZ
  ⟨t.m_rotScale.mul rotation, t.m_position⟩

/-- The member `Transform::scaleWorld (float scale)`. -/
def scaleWorld (t : Transform F) (scale : F) : Transform F :=
  let rotation : Matrix3 F := Matrix3.zeroInit
  let rotation := rotation.setToScale scale
  let m_rotScale := rotation.mul t.m_rotScale
  let m_position := rotation.mulVec t.m_position
  ⟨m_rotScale, m_position⟩

/-- The member `Transform::scaleWorld (float scaleX, float scaleY, float scaleZ)`. -/
def scaleWorld3 (t : Transform F) (scaleX scaleY scaleZ : F) : Transform F :=
  let rotation : Matrix3 F := Matrix3.zeroInit
  let rotation := rotation.setToScale3 scaleX scaleY scaleZ
  let m_rotScale := rotation.mul t.m_rotScale
  let m_position := rotation.mulVec t.m_position
  ⟨m_rotScale, m_position⟩

end Transform

/-! ## Camera.cpp -/

/-- The `<math.h>` functions and the constant `M_PI` that the camera code
reaches through `Matrix3` and `Matrix4`. -/
structure Libm (F : Type) where
  sqrt : F → F
  cos : F → F
  sin : F → F
  tan : F → F
  pi : F

/-- Modelled from the spec: the class `Camera`, whose declaration (`Camera.hpp`) is
not among the sources: the world pose, the saved starting pose, the dirty flag
`m_update`, the cached view matrix and the projection matrix, named as
`Camera.cpp` uses them. -/
structure Camera (F : Type) where
  m_world : Transform F
  m_starting_world : Transform F
  m_update : Bool
  m_viewMatrix : Transform F
  m_projectionMatrix : Matrix4 F

namespace Camera

variable {F : Type} [Field F]

/-- The constructor `Camera::Camera`.  The members are taken to be declared in the
order in which the initialiser list names them (the declaration itself is not
among the sources), so `m_viewMatrix` is a copy of the finished `m_world`; the
body then inverts that copy and sets the projection on the default-constructed
`m_projectionMatrix`. -/
def new (L : Libm F) (eyePosition localBackDirection : Vector3 F)
    (nearClipPlaneDistance farClipPlaneDistance aspectRatio verticalFieldOfViewDegrees : F) :
    Camera F :=
  let m_world : Transform F :=
    ⟨Matrix3.ofUpBack L.sqrt ⟨0, 1, 0⟩ localBackDirection true, eyePosition⟩
  let m_starting_world : Transform F :=
    ⟨Matrix3.ofUpBack L.sqrt ⟨0, 1, 0⟩ localBackDirection true, eyePosition⟩
  let m_update := false
  let m_viewMatrix := m_world
  let m_projectionMatrix : Matrix4 F := Matrix4.identity
  let m_viewMatrix := m_viewMatrix.invertRt
  let m_projectionMatrix := m_projectionMatrix.setToPerspectiveProjection L.tan L.pi
    verticalFieldOfViewDegrees aspectRatio nearClipPlaneDistance farClipPlaneDistance
  ⟨m_world, m_starting_world, m_update, m_viewMatrix, m_projectionMatrix⟩

/-- The member `Camera::setPosition`. -/
def setPosition (c : Camera F) (position : Vector3 F) : Camera F :=
  { c with m_world := c.m_world.setPosition position, m_update := true }

/-- The member `Camera::moveRight`. -/
def moveRight (c : Camera F) (distance : F) : Camera F :=
  { c with m_world := c.m_world.moveRight distance, m_update := true }

/-- The member `Camera::moveUp`. -/
def moveUp (c : Camera F) (distance : F) : Camera F :=
  { c with m_world := c.m_world.moveUp distance, m_update := true }

/-- The member `Camera::moveBack`. -/
def moveBack (c : Camera F) (distance : F) : Camera F :=
  { c with m_world := c.m_world.moveBack distance, m_update := true }

/-- The member `Camera::yaw`. -/
def yaw (L : Libm F) (c : Camera F) (degrees : F) : Camera F :=
  { c with m_world := c.m_world.yaw L.cos L.sin L.pi degrees, m_update := true }

/-- The member `Camera::roll`. -/
def roll (L : Libm F) (c : Camera F) (degrees : F) : Camera F :=
  { c with m_world := c.m_world.roll L.cos L.sin L.pi degrees, m_update := true }

/-- The member `Camera::pitch`. -/
def pitch (L : Libm F) (c : Camera F) (degrees : F) : Camera F :=
  { c with m_world := c.m_world.pitch L.cos L.sin L.pi degrees, m_update := true }

/-- The member `Camera::getViewMatrix`: the returned transform and the camera
after the call. -/
def getViewMatrix (c : Camera F) : Transform F × Camera F :=
  if c.m_update = false then (c.m_viewMatrix, c)
  else
    let m_update := false
    let m_viewMatrix := c.m_viewMatrix.setOrientation c.m_world.getOrientation
    let m_viewMatrix := m_viewMatrix.setPosition c.m_world.getPosition
    let m_viewMatrix := m_viewMatrix.invertRt
    (m_viewMatrix, { c with m_update := m_update, m_viewMatrix := m_viewMatrix })

/-- The member `Camera::setProjectionSymmetricPerspective`. -/
def setProjectionSymmetricPerspective (L : Libm F) (c : Camera F)
    (verticalFovDegrees aspectRatio nearZ farZ : F) : Camera F :=
  { c with m_projectionMatrix :=
      (c.m_projectionMatrix.setToPerspectiveProjection L.tan L.pi
        verticalFovDegrees aspectRatio nearZ farZ) }

/-- The member `Camera::setProjectionAsymmetricPerspective`. -/
def setProjectionAsymmetricPerspective (c : Camera F)
    (left right bottom top nearPlaneZ farPlaneZ : F) : Camera F :=
  { c with m_projectionMatrix :=
      (c.m_projectionMatrix.setToPerspectiveProjectionAsymmetric
        left right bottom top nearPlaneZ farPlaneZ) }

/-- The member `Camera::setProjectionOrthographic`. -/
def setProjectionOrthographic (c : Camera F)
    (left right bottom top nearPlaneZ farPlaneZ : F) : Camera F :=
  { c with m_projectionMatrix :=
      (c.m_projectionMatrix.setToOrthographicProjection
        left right bottom top nearPlaneZ farPlaneZ) }

/-- The member `Camera::getProjectionMatrix`. -/
def getProjectionMatrix (c : Camera F) : Matrix4 F := c.m_projectionMatrix

/-- The member `Camera::resetPose`. -/
def resetPose (c : Camera F) : Camera F :=
  let m_update := true
  let m_world := c.m_world.setPosition c.m_starting_world.getPosition
  let m_world := m_world.setOrientation c.m_starting_world.getOrientation
  { c with m_world := m_world, m_update := m_update }

/-- One call on a camera, with its arguments. -/
inductive Op (F : Type) where
  | setPosition (position : Vector3 F)
  | moveRight (distance : F)
  | moveUp (distance : F)
  | moveBack (distance : F)
  | yaw (degrees : F)
  | pitch (degrees : F)
  | roll (degrees : F)
  | resetPose
  | setProjectionSymmetricPerspective (verticalFovDegrees aspectRatio nearZ farZ : F)
  | setProjectionAsymmetricPerspective (left right bottom top nearPlaneZ farPlaneZ : F)
  | setProjectionOrthographic (left right bottom top nearPlaneZ farPlaneZ : F)
  | getProjectionMatrix
  | getViewMatrix

/-- The calls that change the pose `m_world`. -/
def Op.isPoseMutator : Op F → Bool
  | .setPosition _ | .moveRight _ | .moveUp _ | .moveBack _ => true
  | .yaw _ | .pitch _ | .roll _ | .resetPose => true
  | _ => false

/-- The camera after one call. -/
def step (L : Libm F) (c : Camera F) : Op F → Camera F
  | .setPosition position => c.setPosition position
  | .moveRight distance => c.moveRight distance
  | .moveUp distance => c.moveUp distance
  | .moveBack distance => c.moveBack distance
  | .yaw degrees => c.yaw L degrees
  | .pitch degrees => c.pitch L degrees
  | .roll degrees => c.roll L degrees
  | .resetPose => c.resetPose
  | .setProjectionSymmetricPerspective fov aspect nearZ farZ =>
      c.setProjectionSymmetricPerspective L fov aspect nearZ farZ
  | .setProjectionAsymmetricPerspective l r b t n f =>
      c.setProjectionAsymmetricPerspective l r b t n f
  | .setProjectionOrthographic l r b t n f => c.setProjectionOrthographic l r b t n f
  | .getProjectionMatrix => c
  | .getViewMatrix => c.getViewMatrix.2

/-- The camera after a sequence of calls, the first call first. -/
def run (L : Libm F) (c : Camera F) (ops : List (Op F)) : Camera F :=
  ops.foldl (step L) c

end Camera

/-! ## Specification vocabulary -/

/-- The columns of `m` are unit length (`Vector3::length` is `1`) and mutually
perpendicular (their `Vector3::dot` products are `0`). -/
def Matrix3.IsOrthonormal {F : Type} [Field F] (sqrt : F → F) (m : Matrix3 F) : Prop :=
  m.m_right.length sqrt = 1 ∧ m.m_up.length sqrt = 1 ∧ m.m_back.length sqrt = 1 ∧
  m.m_right.dot m.m_up = 0 ∧ m.m_right.dot m.m_back = 0 ∧ m.m_up.dot m.m_back = 0

instance {F : Type} [Field F] [DecidableEq F] (sqrt : F → F) (m : Matrix3 F) :
    Decidable (m.IsOrthonormal sqrt) := by
  unfold Matrix3.IsOrthonormal; infer_instance

/-- The columns have dot product `1` with themselves and `0` with each other. -/
def Matrix3.DotOrthonormal {F : Type} [Field F] (m : Matrix3 F) : Prop :=
  m.m_right.dot m.m_right = 1 ∧ m.m_up.dot m.m_up = 1 ∧ m.m_back.dot m.m_back = 1 ∧
  m.m_right.dot m.m_up = 0 ∧ m.m_right.dot m.m_back = 0 ∧ m.m_up.dot m.m_back = 0

/-- The product of a `Matrix4` with a column vector, read as the column
combination `right * x + up * y + back * z + translation * w`. -/
def Matrix4.applyTo {F : Type} [Field F] (m : Matrix4 F) (v : Vector4 F) : Vector4 F :=
  ⟨m.m_right.m_x * v.m_x + m.m_up.m_x * v.m_y + m.m_back.m_x * v.m_z + m.m_translation.m_x * v.m_w,
   m.m_right.m_y * v.m_x + m.m_up.m_y * v.m_y + m.m_back.m_y * v.m_z + m.m_translation.m_y * v.m_w,
   m.m_right.m_z * v.m_x + m.m_up.m_z * v.m_y + m.m_back.m_z * v.m_z + m.m_translation.m_z * v.m_w,
   m.m_right.m_w * v.m_x + m.m_up.m_w * v.m_y + m.m_back.m_w * v.m_z + m.m_translation.m_w * v.m_w⟩

/-- The real-number reading of `<math.h>`: `sqrt`, `cos`, `sin`, `tan` and `M_PI`
are the functions and the constant of real analysis. -/
def Libm.IsReal (L : Libm ℝ) : Prop :=
  L.sqrt = Real.sqrt ∧ L.cos = Real.cos ∧ L.sin = Real.sin ∧ L.tan = Real.tan ∧
  L.pi = Real.pi

/-- The cache invariant of the camera: when the dirty flag `m_update` is false,
the cached `m_viewMatrix` is `invertRt` of the current `m_world`. -/
def Camera.Coherent {F : Type} [Field F] (c : Camera F) : Prop :=
  c.m_update = false → c.m_viewMatrix = c.m_world.invertRt

/-! ## Algebra of `Matrix3` -/

namespace Matrix3

variable {F : Type} [Field F]

theorem mul_assoc_aux (a b c : Matrix3 F) : (a.mul b).mul c = a.mul (b.mul c) := by
  ext <;> simp only [mul, mulAssign] <;> ring

theorem identity_mul_aux (a : Matrix3 F) : identity.mul a = a := by
  ext <;> simp [mul, mulAssign, identity, ofScalars]

theorem mul_identity_aux (a : Matrix3 F) : a.mul identity = a := by
  ext <;> simp [mul, mulAssign, identity, ofScalars]

theorem determinant_mul_aux (a b : Matrix3 F) :
    (a.mul b).determinant = a.determinant * b.determinant := by
  simp only [mul, mulAssign, determinant]; ring

theorem determinant_identity_aux : (identity : Matrix3 F).determinant = 1 := by
  simp [determinant, identity, ofScalars]

theorem mulVec_eq_transform (m : Matrix3 F) (v : Vector3 F) : m.mulVec v = m.transform v :=
  rfl

theorem transform_mul_aux (a b : Matrix3 F) (v : Vector3 F) :
    a.transform (b.transform v) = (a.mul b).transform v := by
  ext <;> simp only [mul, mulAssign, transform] <;> ring

theorem invert_of_determinant_eq_zero [DecidableEq F] (m : Matrix3 F)
    (h : m.determinant = 0) : m.invert = m := by
  simp [invert, h]

theorem mul_invert_aux [DecidableEq F] (m : Matrix3 F) (h : m.determinant ≠ 0) :
    m.mul m.invert = identity := by
  rcases m with ⟨⟨rx, ry, rz⟩, ⟨ux, uy, uz⟩, ⟨bx, by_, bz⟩⟩
  simp only [invert, if_neg h]
  simp only [determinant] at h ⊢
  ext <;> simp only [mul, mulAssign, identity, ofScalars] <;> field_simp <;> ring

theorem invert_mul_aux [DecidableEq F] (m : Matrix3 F) (h : m.determinant ≠ 0) :
    m.invert.mul m = identity := by
  rcases m with ⟨⟨rx, ry, rz⟩, ⟨ux, uy, uz⟩, ⟨bx, by_, bz⟩⟩
  simp only [invert, if_neg h]
  simp only [determinant] at h ⊢
  ext <;> simp only [mul, mulAssign, identity, ofScalars] <;> field_simp <;> ring

theorem determinant_invert_ne_zero [DecidableEq F] (m : Matrix3 F) (h : m.determinant ≠ 0) :
    m.invert.determinant ≠ 0 := by
  intro h0
  have h1 := determinant_mul_aux m m.invert
  rw [mul_invert_aux m h, determinant_identity_aux, h0, mul_zero] at h1
  exact one_ne_zero h1

theorem eq_invert_of_mul_eq_identity [DecidableEq F] (n m : Matrix3 F)
    (hnm : n.mul m = identity) (h : m.determinant ≠ 0) : n = m.invert := by
  calc n = n.mul identity := (mul_identity_aux n).symm
    _ = n.mul (m.mul m.invert) := by rw [mul_invert_aux m h]
    _ = (n.mul m).mul m.invert := (mul_assoc_aux n m m.invert).symm
    _ = identity.mul m.invert := by rw [hnm]
    _ = m.invert := identity_mul_aux m.invert

theorem invert_invert_aux [DecidableEq F] (m : Matrix3 F) (h : m.determinant ≠ 0) :
    m.invert.invert = m :=
  (eq_invert_of_mul_eq_identity m m.invert (mul_invert_aux m h)
    (determinant_invert_ne_zero m h)).symm

theorem transpose_mul_self_aux (m : Matrix3 F) (h : m.DotOrthonormal) :
    m.transpose.mul m = identity := by
  obtain ⟨h1, h2, h3, h4, h5, h6⟩ := h
  simp only [Vector3.dot] at h1 h2 h3 h4 h5 h6
  ext <;> simp only [mul, mulAssign, transpose, identity, ofScalars]
  · linear_combination h1
  · linear_combination h4
  · linear_combination h5
  · linear_combination h4
  · linear_combination h2
  · linear_combination h6
  · linear_combination h5
  · linear_combination h6
  · linear_combination h3

theorem determinant_ne_zero_of_dotOrthonormal (m : Matrix3 F) (h : m.DotOrthonormal) :
    m.determinant ≠ 0 := by
  intro h0
  have h1 := determinant_mul_aux m.transpose m
  rw [transpose_mul_self_aux m h, determinant_identity_aux, h0, mul_zero] at h1
  exact one_ne_zero h1

theorem transpose_eq_invert_aux [DecidableEq F] (m : Matrix3 F) (h : m.DotOrthonormal) :
    m.transpose = m.invert :=
  eq_invert_of_mul_eq_identity m.transpose m (transpose_mul_self_aux m h)
    (determinant_ne_zero_of_dotOrthonormal m h)

theorem mul_transpose_self_aux (m : Matrix3 F) (h : m.DotOrthonormal) :
    m.mul m.transpose = identity := by
  classical
  rw [transpose_eq_invert_aux m h]
  exact mul_invert_aux m (determinant_ne_zero_of_dotOrthonormal m h)

end Matrix3

/-! ## Algebra of `Transform` -/

namespace Transform

variable {F : Type} [Field F]

theorem combine_eq_mul_aux (t1 t2 : Transform F) : t1.combine t2 = t1.mul t2 := rfl

theorem mul_rotScale_aux (t1 t2 : Transform F) :
    (t1.mul t2).m_rotScale = t1.m_rotScale.mul t2.m_rotScale := rfl

theorem mul_position_aux (t1 t2 : Transform F) :
    (t1.mul t2).m_position = (t1.m_rotScale.transform t2.m_position).add t1.m_position := rfl

theorem mul_mul_aux (t1 t2 t3 : Transform F) :
    (t1.mul t2).mul t3 = t1.mul (t2.mul t3) := by
  ext <;> simp only [mul, getRight, getUp, getBack, getPosition, Matrix3.ofScalars] <;> ring

end Transform

/-! ## Algebra of `Vector3` -/

namespace Vector3

variable {F : Type} [Field F]

theorem cross_dot_left_aux (a b : Vector3 F) : (a.cross b).dot a = 0 := by
  simp only [cross, dot]; ring

theorem cross_dot_right_aux (a b : Vector3 F) : (a.cross b).dot b = 0 := by
  simp only [cross, dot]; ring

theorem dot_comm_aux (a b : Vector3 F) : a.dot b = b.dot a := by
  simp only [dot]; ring

theorem cross_dot_self_aux (a b : Vector3 F) :
    (a.cross b).dot (a.cross b) = a.dot a * b.dot b - a.dot b * a.dot b := by
  simp only [cross, dot]; ring

theorem div_dot_aux (a b : Vector3 F) (s : F) : (a.div s).dot b = a.dot b / s := by
  simp only [div, dot]; ring

theorem dot_div_aux (a b : Vector3 F) (s : F) : a.dot (b.div s) = a.dot b / s := by
  simp only [div, dot]; ring

theorem cross_div_aux (a b : Vector3 F) (s : F) : a.cross (b.div s) = (a.cross b).div s := by
  ext <;> simp only [div, cross] <;> ring

theorem normalize_eq_div (sqrt : F → F) (a : Vector3 F) :
    a.normalize sqrt = a.div (a.length sqrt) := rfl

theorem length_eq_sqrt_dot (sqrt : F → F) (a : Vector3 F) :
    a.length sqrt = sqrt (a.dot a) := rfl

/-! ### Facts that need the square root of the real numbers -/

theorem dot_self_nonneg (v : Vector3 ℝ) : 0 ≤ v.dot v :=
  add_nonneg (add_nonneg (mul_self_nonneg _) (mul_self_nonneg _)) (mul_self_nonneg _)

theorem length_eq_one_iff (v : Vector3 ℝ) : v.length Real.sqrt = 1 ↔ v.dot v = 1 := by
  rw [length_eq_sqrt_dot]; exact Real.sqrt_eq_one

theorem dot_self_pos (v : Vector3 ℝ) (h : v ≠ zero) : 0 < v.dot v := by
  have h0 : 0 ≤ v.dot v := dot_self_nonneg v
  rcases h0.lt_or_eq with h1 | h1
  · exact h1
  · exfalso
    apply h
    simp only [dot] at h1
    have hx : v.m_x = 0 := by nlinarith [mul_self_nonneg v.m_x, mul_self_nonneg v.m_y, mul_self_nonneg v.m_z]
    have hy : v.m_y = 0 := by nlinarith [mul_self_nonneg v.m_x, mul_self_nonneg v.m_y, mul_self_nonneg v.m_z]
    have hz : v.m_z = 0 := by nlinarith [mul_self_nonneg v.m_x, mul_self_nonneg v.m_y, mul_self_nonneg v.m_z]
    ext <;> simp [zero, splat, hx, hy, hz]

theorem length_pos (v : Vector3 ℝ) (h : v ≠ zero) : 0 < v.length Real.sqrt := by
  rw [length_eq_sqrt_dot]; exact Real.sqrt_pos.mpr (dot_self_pos v h)

theorem length_mul_self (v : Vector3 ℝ) : v.length Real.sqrt * v.length Real.sqrt = v.dot v := by
  rw [length_eq_sqrt_dot]
  exact Real.mul_self_sqrt (dot_self_nonneg v)

theorem normalize_dot_self (v : Vector3 ℝ) (h : v ≠ zero) :
    (v.normalize Real.sqrt).dot (v.normalize Real.sqrt) = 1 := by
  have hp := length_pos v h
  rw [normalize_eq_div, div_dot_aux, dot_div_aux, ← length_mul_self]
  field_simp

theorem normalize_of_dot_self_eq_one (v : Vector3 ℝ) (h : v.dot v = 1) :
    v.normalize Real.sqrt = v := by
  have h1 : v.length Real.sqrt = 1 := (length_eq_one_iff v).mpr h
  rw [normalize_eq_div, h1]
  ext <;> simp [div]

theorem div_ne_zero_aux (v : Vector3 ℝ) (s : ℝ) (hs : s ≠ 0) (h : v ≠ zero) :
    v.div s ≠ zero := by
  intro h0
  apply h
  have hx := congrArg Vector3.m_x h0
  have hy := congrArg Vector3.m_y h0
  have hz := congrArg Vector3.m_z h0
  simp only [div, zero, splat, div_eq_zero_iff, hs, or_false] at hx hy hz
  ext <;> simp [zero, splat, hx, hy, hz]

end Vector3

/-! ## Orthonormal matrices and rigid transforms -/

namespace Matrix3

theorem isOrthonormal_iff_dotOrthonormal (m : Matrix3 ℝ) :
    m.IsOrthonormal Real.sqrt ↔ m.DotOrthonormal := by
  simp only [IsOrthonormal, DotOrthonormal, Vector3.length_eq_one_iff]

theorem orthonormalize_eq_aux {F : Type} [Field F] (sqrt : F → F) (m : Matrix3 F) :
    m.orthonormalize sqrt =
      ⟨(m.m_up.cross (m.m_back.normalize sqrt)).normalize sqrt,
       ((m.m_back.normalize sqrt).cross
          ((m.m_up.cross (m.m_back.normalize sqrt)).normalize sqrt)).normalize sqrt,
       m.m_back.normalize sqrt⟩ := rfl

theorem orthonormalize_dotOrthonormal (m : Matrix3 ℝ) (hb : m.m_back ≠ Vector3.zero)
    (hc : m.m_up.cross m.m_back ≠ Vector3.zero) :
    (m.orthonormalize Real.sqrt).DotOrthonormal := by
  have hlen : m.m_back.length Real.sqrt ≠ 0 := (Vector3.length_pos _ hb).ne'
  have hB : (m.m_back.normalize Real.sqrt).dot (m.m_back.normalize Real.sqrt) = 1 :=
    Vector3.normalize_dot_self _ hb
  have hR0 : m.m_up.cross (m.m_back.normalize Real.sqrt) ≠ Vector3.zero := by
    rw [Vector3.normalize_eq_div, Vector3.cross_div_aux]
    exact Vector3.div_ne_zero_aux _ _ hlen hc
  rw [orthonormalize_eq_aux]
  generalize m.m_back.normalize Real.sqrt = B at hB hR0
  have hR : ((m.m_up.cross B).normalize Real.sqrt).dot ((m.m_up.cross B).normalize Real.sqrt) = 1 :=
    Vector3.normalize_dot_self _ hR0
  have hRB : ((m.m_up.cross B).normalize Real.sqrt).dot B = 0 := by
    rw [Vector3.normalize_eq_div, Vector3.div_dot_aux, Vector3.cross_dot_right_aux, zero_div]
  generalize (m.m_up.cross B).normalize Real.sqrt = R at hR hRB
  have hU0 : (B.cross R).dot (B.cross R) = 1 := by
    rw [Vector3.cross_dot_self_aux, hB, hR, Vector3.dot_comm_aux B R, hRB]; norm_num
  rw [Vector3.normalize_of_dot_self_eq_one _ hU0]
  refine ⟨hR, hU0, hB, ?_, hRB, ?_⟩
  · rw [Vector3.dot_comm_aux]; exact Vector3.cross_dot_right_aux B R
  · exact Vector3.cross_dot_left_aux B R

end Matrix3

namespace Transform

variable {F : Type} [Field F]

theorem combine_invertRt_aux (t : Transform F) (h : t.m_rotScale.DotOrthonormal) :
    t.combine t.invertRt = identity := by
  have h1 := Matrix3.mul_transpose_self_aux _ h
  have hr : (t.combine t.invertRt).m_rotScale = Matrix3.identity := h1
  have hp : (t.combine t.invertRt).m_position = ⟨0, 0, 0⟩ := by
    show (t.m_rotScale.transform (t.m_rotScale.transpose.transform
      (Vector3.smul (-1) t.m_position))).add t.m_position = _
    rw [Matrix3.transform_mul_aux, h1]
    ext <;> simp [Matrix3.transform, Matrix3.identity, Matrix3.ofScalars, Vector3.smul,
      Vector3.add, Vector3.addAssign]
  exact Transform.ext hr hp

theorem invertRt_combine_aux (t : Transform F) (h : t.m_rotScale.DotOrthonormal) :
    t.invertRt.combine t = identity := by
  have h1 := Matrix3.transpose_mul_self_aux _ h
  have hr : (t.invertRt.combine t).m_rotScale = Matrix3.identity := h1
  have hp : (t.invertRt.combine t).m_position = ⟨0, 0, 0⟩ := by
    show (t.m_rotScale.transpose.transform t.m_position).add
      (t.m_rotScale.transpose.transform (Vector3.smul (-1) t.m_position)) = _
    ext <;> simp only [Matrix3.transform, Vector3.smul, Vector3.add, Vector3.addAssign] <;> ring
  exact Transform.ext hr hp

end Transform

/-! ## The view-matrix cache of `Camera` -/

namespace Camera

variable {F : Type} [Field F]

theorem new_coherent (L : Libm F) (eye back : Vector3 F) (n f a v : F) :
    (new L eye back n f a v).Coherent := fun _ => rfl

theorem getViewMatrix_fst_of_coherent (c : Camera F) (h : c.Coherent) :
    c.getViewMatrix.1 = c.m_world.invertRt := by
  unfold getViewMatrix
  split
  · rename_i hu
    exact h hu
  · rfl

theorem getViewMatrix_world (c : Camera F) : c.getViewMatrix.2.m_world = c.m_world := by
  unfold getViewMatrix
  split <;> rfl

theorem getViewMatrix_update (c : Camera F) : c.getViewMatrix.2.m_update = false := by
  unfold getViewMatrix
  split
  · rename_i hu
    exact hu
  · rfl

theorem getViewMatrix_coherent (c : Camera F) (h : c.Coherent) :
    c.getViewMatrix.2.Coherent := by
  unfold getViewMatrix
  split
  · exact h
  · intro _; rfl

theorem step_update_of_isPoseMutator (L : Libm F) (c : Camera F) (op : Op F)
    (h : op.isPoseMutator = true) : (c.step L op).m_update = true := by
  cases op <;> first | rfl | exact absurd h (by simp [Op.isPoseMutator])

theorem step_coherent (L : Libm F) (c : Camera F) (op : Op F) (h : c.Coherent) :
    (c.step L op).Coherent := by
  cases op
  case getViewMatrix => exact getViewMatrix_coherent c h
  case getProjectionMatrix => exact h
  case setProjectionSymmetricPerspective => exact h
  case setProjectionAsymmetricPerspective => exact h
  case setProjectionOrthographic => exact h
  all_goals exact fun hu => absurd hu (by simp [step, setPosition, moveRight, moveUp, moveBack,
    yaw, pitch, roll, resetPose])

theorem run_coherent (L : Libm F) (ops : List (Op F)) (c : Camera F) (h : c.Coherent) :
    (c.run L ops).Coherent := by
  induction ops generalizing c with
  | nil => exact h
  | cons op ops ih => exact ih (c.step L op) (step_coherent L c op h)

end Camera

/-! ## The claims -/

/-- Claim C1. For every transform over the reals whose `m_rotScale` columns are
unit length and mutually perpendicular, `t.combine (invertRt t)` is the identity
transform (identity matrix, zero position), and so is `(invertRt t).combine t`. -/
theorem invertRt_round_trip (t : Transform ℝ) (h : t.m_rotScale.IsOrthonormal Real.sqrt) :
    t.combine t.invertRt = Transform.identity ∧
    t.invertRt.combine t = Transform.identity :=
  have hd := (Matrix3.isOrthonormal_iff_dotOrthonormal _).mp h
  ⟨Transform.combine_invertRt_aux t hd, Transform.invertRt_combine_aux t hd⟩

theorem invertRt_round_trip_witness :
    (⟨Matrix3.ofScalars (3/5) (4/5) 0 (-4/5) (3/5) 0 0 0 1, ⟨1, 2, 3⟩⟩ :
        Transform ℝ).m_rotScale.IsOrthonormal Real.sqrt ∧
    ((⟨Matrix3.ofScalars (3/5) (4/5) 0 (-4/5) (3/5) 0 0 0 1, ⟨1, 2, 3⟩⟩ : Transform ℝ).combine
        (⟨Matrix3.ofScalars (3/5) (4/5) 0 (-4/5) (3/5) 0 0 0 1, ⟨1, 2, 3⟩⟩ :
          Transform ℝ).invertRt = Transform.identity ∧
     (⟨Matrix3.ofScalars (3/5) (4/5) 0 (-4/5) (3/5) 0 0 0 1, ⟨1, 2, 3⟩⟩ :
        Transform ℝ).invertRt.combine
        ⟨Matrix3.ofScalars (3/5) (4/5) 0 (-4/5) (3/5) 0 0 0 1, ⟨1, 2, 3⟩⟩ =
          Transform.identity) :=
  have h : (⟨Matrix3.ofScalars (3/5) (4/5) 0 (-4/5) (3/5) 0 0 0 1, ⟨1, 2, 3⟩⟩ :
      Transform ℝ).m_rotScale.IsOrthonormal Real.sqrt := by
    rw [Matrix3.isOrthonormal_iff_dotOrthonormal]
    simp only [Matrix3.DotOrthonormal, Matrix3.ofScalars, Vector3.dot]
    norm_num
  ⟨h, invertRt_round_trip _ h⟩

/-- Claim C2. For all transforms `t1`, `t2`, both `t1.combine t2` and
`operator* (t1, t2)` have `m_rotScale` equal to the `Matrix3` product
`t1.m_rotScale * t2.m_rotScale` and `m_position` equal to
`t1.m_rotScale.transform (t2.m_position) + t1.m_position`; in particular the two
produce the same transform. -/
theorem combine_spec {F : Type} [Field F] (t1 t2 : Transform F) :
    (t1.combine t2).m_rotScale = t1.m_rotScale.mul t2.m_rotScale ∧
    (t1.combine t2).m_position =
      (t1.m_rotScale.transform t2.m_position).add t1.m_position ∧
    (t1.mul t2).m_rotScale = t1.m_rotScale.mul t2.m_rotScale ∧
    (t1.mul t2).m_position =
      (t1.m_rotScale.transform t2.m_position).add t1.m_position ∧
    t1.combine t2 = t1.mul t2 :=
  ⟨Transform.mul_rotScale_aux t1 t2, Transform.mul_position_aux t1 t2,
   Transform.mul_rotScale_aux t1 t2, Transform.mul_position_aux t1 t2,
   Transform.combine_eq_mul_aux t1 t2⟩

/-- Claim C3. Composition of transforms with `operator*` is associative in exact
arithmetic, for all transforms (rigid or not): `(t1 * t2) * t3 = t1 * (t2 * t3)`,
in `m_rotScale` and in `m_position`. -/
theorem transform_mul_assoc {F : Type} [Field F] (t1 t2 t3 : Transform F) :
    (t1.mul t2).mul t3 = t1.mul (t2.mul t3) :=
  Transform.mul_mul_aux t1 t2 t3

/-- Claim C4. For every matrix with a non-zero `determinant`, in exact arithmetic
`M * invert M` and `invert M * M` are both the identity matrix; and the matrix of
the test, `Matrix3(1,1,2,6,6,6,7,8,10)`, inverts to right `(2,1,-1)`,
up `(-3,-2/3,1)`, back `(1,-1/6,0)`. -/
theorem invert_is_inverse {F : Type} [Field F] [DecidableEq F] (m : Matrix3 F)
    (h : m.determinant ≠ 0) :
    (m.mul m.invert = Matrix3.identity ∧ m.invert.mul m = Matrix3.identity) ∧
    (Matrix3.ofScalars 1 1 2 6 6 6 7 8 10 : Matrix3 ℚ).invert =
      ⟨⟨2, 1, -1⟩, ⟨-3, -2/3, 1⟩, ⟨1, -1/6, 0⟩⟩ :=
  ⟨⟨Matrix3.mul_invert_aux m h, Matrix3.invert_mul_aux m h⟩,
   by norm_num [Matrix3.invert, Matrix3.determinant, Matrix3.ofScalars]⟩

theorem invert_is_inverse_witness :
    (Matrix3.ofScalars 1 1 2 6 6 6 7 8 10 : Matrix3 ℚ).determinant ≠ 0 ∧
    (((Matrix3.ofScalars 1 1 2 6 6 6 7 8 10 : Matrix3 ℚ).mul
        (Matrix3.ofScalars 1 1 2 6 6 6 7 8 10 : Matrix3 ℚ).invert = Matrix3.identity ∧
      (Matrix3.ofScalars 1 1 2 6 6 6 7 8 10 : Matrix3 ℚ).invert.mul
        (Matrix3.ofScalars 1 1 2 6 6 6 7 8 10 : Matrix3 ℚ) = Matrix3.identity) ∧
     (Matrix3.ofScalars 1 1 2 6 6 6 7 8 10 : Matrix3 ℚ).invert =
      ⟨⟨2, 1, -1⟩, ⟨-3, -2/3, 1⟩, ⟨1, -1/6, 0⟩⟩) :=
  have h : (Matrix3.ofScalars 1 1 2 6 6 6 7 8 10 : Matrix3 ℚ).determinant ≠ 0 := by
    norm_num [Matrix3.determinant, Matrix3.ofScalars]
  ⟨h, invert_is_inverse _ h⟩

/-- Claim C5. For every matrix whose `determinant` is exactly `0`, `invert`
returns the matrix with all nine components unchanged; `invert` has no error
result at all. -/
theorem invert_singular_noop {F : Type} [Field F] [DecidableEq F] (m : Matrix3 F)
    (h : m.determinant = 0) : m.invert = m :=
  Matrix3.invert_of_determinant_eq_zero m h

theorem invert_singular_noop_witness :
    (Matrix3.ofScalars 1 2 3 1 2 3 0 0 1 : Matrix3 ℚ).determinant = 0 ∧
    (Matrix3.ofScalars 1 2 3 1 2 3 0 0 1 : Matrix3 ℚ).invert =
      Matrix3.ofScalars 1 2 3 1 2 3 0 0 1 :=
  have h : (Matrix3.ofScalars 1 2 3 1 2 3 0 0 1 : Matrix3 ℚ).determinant = 0 := by
    norm_num [Matrix3.determinant, Matrix3.ofScalars]
  ⟨h, invert_singular_noop _ h⟩

/-- Claim C6. For every matrix with a non-zero `determinant`, in exact arithmetic
calling `invert` twice gives back the original matrix, component by component. -/
theorem invert_twice {F : Type} [Field F] [DecidableEq F] (m : Matrix3 F)
    (h : m.determinant ≠ 0) : m.invert.invert = m :=
  Matrix3.invert_invert_aux m h

theorem invert_twice_witness :
    (Matrix3.ofScalars 1 1 2 6 6 6 7 8 10 : Matrix3 ℚ).determinant ≠ 0 ∧
    (Matrix3.ofScalars 1 1 2 6 6 6 7 8 10 : Matrix3 ℚ).invert.invert =
      Matrix3.ofScalars 1 1 2 6 6 6 7 8 10 :=
  have h : (Matrix3.ofScalars 1 1 2 6 6 6 7 8 10 : Matrix3 ℚ).determinant ≠ 0 := by
    norm_num [Matrix3.determinant, Matrix3.ofScalars]
  ⟨h, invert_twice _ h⟩

/-- Claim C7. For every matrix over the reals whose three columns are unit length
and mutually perpendicular, `transpose M * M` is the identity matrix, and
`invertRotation` (a transpose) gives the same matrix as the cofactor-based
`invert`. -/
theorem invertRotation_eq_invert (m : Matrix3 ℝ) (h : m.IsOrthonormal Real.sqrt) :
    m.transpose.mul m = Matrix3.identity ∧ m.invertRotation = m.invert :=
  have hd := (Matrix3.isOrthonormal_iff_dotOrthonormal m).mp h
  ⟨Matrix3.transpose_mul_self_aux m hd, Matrix3.transpose_eq_invert_aux m hd⟩

theorem invertRotation_eq_invert_witness :
    (Matrix3.ofScalars (3/5) (4/5) 0 (-4/5) (3/5) 0 0 0 1 : Matrix3 ℝ).IsOrthonormal
      Real.sqrt ∧
    ((Matrix3.ofScalars (3/5) (4/5) 0 (-4/5) (3/5) 0 0 0 1 : Matrix3 ℝ).transpose.mul
        (Matrix3.ofScalars (3/5) (4/5) 0 (-4/5) (3/5) 0 0 0 1) = Matrix3.identity ∧
     (Matrix3.ofScalars (3/5) (4/5) 0 (-4/5) (3/5) 0 0 0 1 : Matrix3 ℝ).invertRotation =
        (Matrix3.ofScalars (3/5) (4/5) 0 (-4/5) (3/5) 0 0 0 1 : Matrix3 ℝ).invert) :=
  have h : (Matrix3.ofScalars (3/5) (4/5) 0 (-4/5) (3/5) 0 0 0 1 :
      Matrix3 ℝ).IsOrthonormal Real.sqrt := by
    rw [Matrix3.isOrthonormal_iff_dotOrthonormal]
    simp only [Matrix3.DotOrthonormal, Matrix3.ofScalars, Vector3.dot]
    norm_num
  ⟨h, invertRotation_eq_invert _ h⟩

/-- Claim C10. In every state reached from the constructor by any sequence of
`setPosition`, `moveRight`/`moveUp`/`moveBack`, `yaw`, `pitch`, `roll`,
`resetPose`, the projection setters, `getProjectionMatrix` and `getViewMatrix`:
`getViewMatrix` returns `invertRt` of the current world transform and leaves the
world transform alone; whenever the dirty flag is false the cached view matrix is
`invertRt` of the world transform; every pose mutator sets the flag; and
`getViewMatrix` clears it. -/
theorem camera_cache_coherent {F : Type} [Field F] (L : Libm F)
    (eyePosition localBackDirection : Vector3 F)
    (nearClip farClip aspectRatio fovDegrees : F) (ops : List (Camera.Op F)) :
    ((Camera.new L eyePosition localBackDirection nearClip farClip aspectRatio
        fovDegrees).run L ops).getViewMatrix.1 =
      ((Camera.new L eyePosition localBackDirection nearClip farClip aspectRatio
        fovDegrees).run L ops).m_world.invertRt ∧
    ((Camera.new L eyePosition localBackDirection nearClip farClip aspectRatio
        fovDegrees).run L ops).getViewMatrix.2.m_world =
      ((Camera.new L eyePosition localBackDirection nearClip farClip aspectRatio
        fovDegrees).run L ops).m_world ∧
    (((Camera.new L eyePosition localBackDirection nearClip farClip aspectRatio
        fovDegrees).run L ops).m_update = false →
      ((Camera.new L eyePosition localBackDirection nearClip farClip aspectRatio
        fovDegrees).run L ops).m_viewMatrix =
      ((Camera.new L eyePosition localBackDirection nearClip farClip aspectRatio
        fovDegrees).run L ops).m_world.invertRt) ∧
    (∀ op : Camera.Op F, op.isPoseMutator = true →
      (((Camera.new L eyePosition localBackDirection nearClip farClip aspectRatio
        fovDegrees).run L ops).step L op).m_update = true) ∧
    ((Camera.new L eyePosition localBackDirection nearClip farClip aspectRatio
        fovDegrees).run L ops).getViewMatrix.2.m_update = false :=
  have hc := Camera.run_coherent L ops _
    (Camera.new_coherent L eyePosition localBackDirection nearClip farClip aspectRatio
      fovDegrees)
  ⟨Camera.getViewMatrix_fst_of_coherent _ hc, Camera.getViewMatrix_world _, hc,
   fun op hop => Camera.step_update_of_isPoseMutator L _ op hop,
   Camera.getViewMatrix_update _⟩

theorem camera_cache_coherent_witness :
    ((((Camera.new (⟨Real.sqrt, Real.cos, Real.sin, Real.tan, Real.pi⟩ : Libm ℝ)
          ⟨0, 0, 25⟩ ⟨0, 0, 1⟩ 1 100 1 60).run
          ⟨Real.sqrt, Real.cos, Real.sin, Real.tan, Real.pi⟩
          [Camera.Op.moveBack 1, Camera.Op.getViewMatrix, Camera.Op.yaw 90]).step
          ⟨Real.sqrt, Real.cos, Real.sin, Real.tan, Real.pi⟩
          (Camera.Op.pitch 10)).m_update = true) :=
  (camera_cache_coherent (⟨Real.sqrt, Real.cos, Real.sin, Real.tan, Real.pi⟩ : Libm ℝ)
    ⟨0, 0, 25⟩ ⟨0, 0, 1⟩ 1 100 1 60
    [Camera.Op.moveBack 1, Camera.Op.getViewMatrix, Camera.Op.yaw 90]).2.2.2.1
    (Camera.Op.pitch 10) rfl

/-! ## Orthonormality along the camera calls -/

namespace Matrix3

variable {F : Type} [Field F]

theorem transform_dot_aux (m : Matrix3 F) (h : m.DotOrthonormal) (u v : Vector3 F) :
    (m.transform u).dot (m.transform v) = u.dot v := by
  obtain ⟨h1, h2, h3, h4, h5, h6⟩ := h
  simp only [Vector3.dot, transform] at *
  linear_combination (u.m_x * v.m_x) * h1 + (u.m_y * v.m_y) * h2 + (u.m_z * v.m_z) * h3 +
    (u.m_x * v.m_y + u.m_y * v.m_x) * h4 + (u.m_x * v.m_z + u.m_z * v.m_x) * h5 +
    (u.m_y * v.m_z + u.m_z * v.m_y) * h6

theorem mul_dotOrthonormal (a m : Matrix3 F) (ha : a.DotOrthonormal)
    (hm : m.DotOrthonormal) : (a.mul m).DotOrthonormal := by
  obtain ⟨h1, h2, h3, h4, h5, h6⟩ := hm
  exact ⟨(transform_dot_aux a ha _ _).trans h1, (transform_dot_aux a ha _ _).trans h2,
    (transform_dot_aux a ha _ _).trans h3, (transform_dot_aux a ha _ _).trans h4,
    (transform_dot_aux a ha _ _).trans h5, (transform_dot_aux a ha _ _).trans h6⟩

theorem setToRotationX_dotOrthonormal (cos sin : F → F) (pi : F) (this : Matrix3 F) (a : F)
    (hcs : cos (pi * a / 180) * cos (pi * a / 180) + sin (pi * a / 180) * sin (pi * a / 180) = 1) :
    (setToRotationX cos sin pi this a).DotOrthonormal := by
  simp only [DotOrthonormal, setToRotationX, setToIdentity, Vector3.dot]
  refine ⟨by ring, ?_, ?_, by ring, by ring, by ring⟩ <;> linear_combination hcs

theorem setToRotationY_dotOrthonormal (cos sin : F → F) (pi : F) (this : Matrix3 F) (a : F)
    (hcs : cos (pi * a / 180) * cos (pi * a / 180) + sin (pi * a / 180) * sin (pi * a / 180) = 1) :
    (setToRotationY cos sin pi this a).DotOrthonormal := by
  simp only [DotOrthonormal, setToRotationY, setToIdentity, Vector3.dot]
  refine ⟨?_, by ring, ?_, by ring, by ring, by ring⟩ <;> linear_combination hcs

theorem setToRotationZ_dotOrthonormal (cos sin : F → F) (pi : F) (this : Matrix3 F) (a : F)
    (hcs : cos (pi * a / 180) * cos (pi * a / 180) + sin (pi * a / 180) * sin (pi * a / 180) = 1) :
    (setToRotationZ cos sin pi this a).DotOrthonormal := by
  simp only [DotOrthonormal, setToRotationZ, setToIdentity, Vector3.dot]
  refine ⟨?_, ?_, by ring, by ring, by ring, by ring⟩ <;> linear_combination hcs

theorem ofUpBack_dotOrthonormal (up back : Vector3 ℝ) (hb : back ≠ Vector3.zero)
    (hc : up.cross back ≠ Vector3.zero) :
    (ofUpBack Real.sqrt up back true).DotOrthonormal :=
  orthonormalize_dotOrthonormal ⟨up.cross back, up, back⟩ hb hc

end Matrix3

theorem real_cos_sin_aux (x : ℝ) : Real.cos x * Real.cos x + Real.sin x * Real.sin x = 1 := by
  have h := Real.cos_sq_add_sin_sq x
  linear_combination h

namespace Camera

theorem step_starting_world {F : Type} [Field F] (L : Libm F) (c : Camera F) (op : Op F) :
    (c.step L op).m_starting_world = c.m_starting_world := by
  cases op
  case getViewMatrix =>
    simp only [step, getViewMatrix]
    split <;> rfl
  all_goals rfl

theorem run_starting_world {F : Type} [Field F] (L : Libm F) (ops : List (Op F))
    (c : Camera F) : (c.run L ops).m_starting_world = c.m_starting_world := by
  induction ops generalizing c with
  | nil => rfl
  | cons op ops ih => exact (ih (c.step L op)).trans (step_starting_world L c op)

theorem step_world_dotOrthonormal (L : Libm ℝ) (hL : L.IsReal) (c : Camera ℝ) (op : Op ℝ)
    (hs : c.m_starting_world.m_rotScale.DotOrthonormal)
    (hw : c.m_world.m_rotScale.DotOrthonormal) :
    (c.step L op).m_world.m_rotScale.DotOrthonormal := by
  obtain ⟨hsq, hcos, hsin, htan, hpi⟩ := hL
  have hcs : ∀ a : ℝ, L.cos (L.pi * a / 180) * L.cos (L.pi * a / 180) +
      L.sin (L.pi * a / 180) * L.sin (L.pi * a / 180) = 1 := by
    intro a; rw [hcos, hsin]; exact real_cos_sin_aux _
  cases op
  case getViewMatrix =>
    rw [show (c.step L Op.getViewMatrix) = c.getViewMatrix.2 from rfl, getViewMatrix_world]
    exact hw
  case yaw a =>
    exact Matrix3.mul_dotOrthonormal _ _ hw
      (Matrix3.setToRotationY_dotOrthonormal _ _ _ _ _ (hcs a))
  case pitch a =>
    exact Matrix3.mul_dotOrthonormal _ _ hw
      (Matrix3.setToRotationX_dotOrthonormal _ _ _ _ _ (hcs a))
  case roll a =>
    exact Matrix3.mul_dotOrthonormal _ _ hw
      (Matrix3.setToRotationZ_dotOrthonormal _ _ _ _ _ (hcs a))
  case resetPose => exact hs
  all_goals exact hw

theorem run_world_dotOrthonormal (L : Libm ℝ) (hL : L.IsReal) (ops : List (Op ℝ))
    (c : Camera ℝ) (hs : c.m_starting_world.m_rotScale.DotOrthonormal)
    (hw : c.m_world.m_rotScale.DotOrthonormal) :
    (c.run L ops).m_world.m_rotScale.DotOrthonormal := by
  induction ops generalizing c with
  | nil => exact hw
  | cons op ops ih =>
    exact ih (c.step L op) (by rw [step_starting_world]; exact hs)
      (step_world_dotOrthonormal L hL c op hs hw)

theorem new_world_dotOrthonormal (L : Libm ℝ) (hL : L.IsReal) (eye back : Vector3 ℝ)
    (n f a v : ℝ) (hb : back ≠ Vector3.zero)
    (hy : (⟨0, 1, 0⟩ : Vector3 ℝ).cross back ≠ Vector3.zero) :
    (new L eye back n f a v).m_world.m_rotScale.DotOrthonormal := by
  obtain ⟨hsq, -⟩ := hL
  show (Matrix3.ofUpBack L.sqrt ⟨0, 1, 0⟩ back true).DotOrthonormal
  rw [hsq]
  exact Matrix3.ofUpBack_dotOrthonormal _ _ hb hy

end Camera

namespace Camera

theorem resetPose_world {F : Type} (c : Camera F) :
    c.resetPose.m_world = c.m_starting_world := rfl

variable {F : Type} [Field F]

theorem getViewMatrix_twice (c : Camera F) :
    c.getViewMatrix.2.getViewMatrix = (c.getViewMatrix.1, c.getViewMatrix.2) := by
  cases hu : c.m_update
  · have h1 : c.getViewMatrix = (c.m_viewMatrix, c) := by simp [getViewMatrix, hu]
    rw [h1]
    exact h1
  · have h1 : c.getViewMatrix = (c.m_world.invertRt,
        { c with m_update := false, m_viewMatrix := c.m_world.invertRt }) := by
      simp [getViewMatrix, hu, Transform.setOrientation, Transform.setPosition,
        Transform.getOrientation, Transform.getPosition]
    rw [h1]
    simp [getViewMatrix]

theorem new_starting_world (L : Libm F) (eye back : Vector3 F) (n f a v : F) :
    (new L eye back n f a v).m_starting_world = (new L eye back n f a v).m_world := rfl

theorem getViewMatrix_new (L : Libm F) (eye back : Vector3 F) (n f a v : F) :
    (new L eye back n f a v).getViewMatrix.1 = (new L eye back n f a v).m_world.invertRt := rfl

theorem getViewMatrix_resetPose (c : Camera F) :
    c.resetPose.getViewMatrix.1 = c.m_starting_world.invertRt := rfl

theorem step_projectionMatrix (L : Libm F) (c : Camera F) (op : Op F)
    (h : op.isPoseMutator = true ∨ op = Op.getViewMatrix) :
    (c.step L op).m_projectionMatrix = c.m_projectionMatrix := by
  rcases h with h | h
  · cases op <;> first | rfl | exact absurd h (by simp [Op.isPoseMutator])
  · subst h
    simp only [step, getViewMatrix]
    split <;> rfl

end Camera

/-- Claim C12. In every camera state reached from the constructor, two
consecutive `getViewMatrix` calls return the identical transform, and the second
call changes no field of the camera. -/
theorem getViewMatrix_short_circuit {F : Type} [Field F] (L : Libm F)
    (eyePosition localBackDirection : Vector3 F)
    (nearClip farClip aspectRatio fovDegrees : F) (ops : List (Camera.Op F)) :
    (((Camera.new L eyePosition localBackDirection nearClip farClip aspectRatio
        fovDegrees).run L ops).getViewMatrix.2.getViewMatrix.1 =
      ((Camera.new L eyePosition localBackDirection nearClip farClip aspectRatio
        fovDegrees).run L ops).getViewMatrix.1) ∧
    (((Camera.new L eyePosition localBackDirection nearClip farClip aspectRatio
        fovDegrees).run L ops).getViewMatrix.2.getViewMatrix.2 =
      ((Camera.new L eyePosition localBackDirection nearClip farClip aspectRatio
        fovDegrees).run L ops).getViewMatrix.2) :=
  ⟨congrArg Prod.fst (Camera.getViewMatrix_twice _),
   congrArg Prod.snd (Camera.getViewMatrix_twice _)⟩

theorem getViewMatrix_short_circuit_witness :
    (((Camera.new (⟨Real.sqrt, Real.cos, Real.sin, Real.tan, Real.pi⟩ : Libm ℝ)
        ⟨0, 0, 25⟩ ⟨0, 0, 1⟩ 1 100 1 60).run
        ⟨Real.sqrt, Real.cos, Real.sin, Real.tan, Real.pi⟩ []).getViewMatrix.2.getViewMatrix.1 =
      ((Camera.new (⟨Real.sqrt, Real.cos, Real.sin, Real.tan, Real.pi⟩ : Libm ℝ)
        ⟨0, 0, 25⟩ ⟨0, 0, 1⟩ 1 100 1 60).run
        ⟨Real.sqrt, Real.cos, Real.sin, Real.tan, Real.pi⟩ []).getViewMatrix.1) ∧
    (((Camera.new (⟨Real.sqrt, Real.cos, Real.sin, Real.tan, Real.pi⟩ : Libm ℝ)
        ⟨0, 0, 25⟩ ⟨0, 0, 1⟩ 1 100 1 60).run
        ⟨Real.sqrt, Real.cos, Real.sin, Real.tan, Real.pi⟩ []).getViewMatrix.2.getViewMatrix.2 =
      ((Camera.new (⟨Real.sqrt, Real.cos, Real.sin, Real.tan, Real.pi⟩ : Libm ℝ)
        ⟨0, 0, 25⟩ ⟨0, 0, 1⟩ 1 100 1 60).run
        ⟨Real.sqrt, Real.cos, Real.sin, Real.tan, Real.pi⟩ []).getViewMatrix.2) :=
  getViewMatrix_short_circuit (⟨Real.sqrt, Real.cos, Real.sin, Real.tan, Real.pi⟩ : Libm ℝ)
    ⟨0, 0, 25⟩ ⟨0, 0, 1⟩ 1 100 1 60 []

/-- Claim C13. The saved starting pose is the same after every sequence of calls
as after construction; hence after `resetPose` the world transform (position and
orientation) is the one the constructor set, the dirty flag is set, and the next
`getViewMatrix` returns the transform that `getViewMatrix` returned right after
construction. -/
theorem resetPose_restores {F : Type} [Field F] (L : Libm F)
    (eyePosition localBackDirection : Vector3 F)
    (nearClip farClip aspectRatio fovDegrees : F) (ops : List (Camera.Op F)) :
    ((Camera.new L eyePosition localBackDirection nearClip farClip aspectRatio
        fovDegrees).run L ops).m_starting_world =
      (Camera.new L eyePosition localBackDirection nearClip farClip aspectRatio
        fovDegrees).m_starting_world ∧
    ((Camera.new L eyePosition localBackDirection nearClip farClip aspectRatio
        fovDegrees).run L ops).resetPose.m_world.getPosition =
      (Camera.new L eyePosition localBackDirection nearClip farClip aspectRatio
        fovDegrees).m_world.getPosition ∧
    ((Camera.new L eyePosition localBackDirection nearClip farClip aspectRatio
        fovDegrees).run L ops).resetPose.m_world.getOrientation =
      (Camera.new L eyePosition localBackDirection nearClip farClip aspectRatio
        fovDegrees).m_world.getOrientation ∧
    ((Camera.new L eyePosition localBackDirection nearClip farClip aspectRatio
        fovDegrees).run L ops).resetPose.m_update = true ∧
    ((Camera.new L eyePosition localBackDirection nearClip farClip aspectRatio
        fovDegrees).run L ops).resetPose.getViewMatrix.1 =
      (Camera.new L eyePosition localBackDirection nearClip farClip aspectRatio
        fovDegrees).getViewMatrix.1 :=
  have hs := Camera.run_starting_world L ops
    (Camera.new L eyePosition localBackDirection nearClip farClip aspectRatio fovDegrees)
  have hw : ((Camera.new L eyePosition localBackDirection nearClip farClip aspectRatio
      fovDegrees).run L ops).resetPose.m_world =
      (Camera.new L eyePosition localBackDirection nearClip farClip aspectRatio
        fovDegrees).m_world :=
    (Camera.resetPose_world _).trans (hs.trans (Camera.new_starting_world _ _ _ _ _ _ _))
  ⟨hs, congrArg Transform.getPosition hw, congrArg Transform.getOrientation hw, rfl,
   (Camera.getViewMatrix_resetPose _).trans
    ((congrArg Transform.invertRt (hs.trans (Camera.new_starting_world _ _ _ _ _ _ _))).trans
      (Camera.getViewMatrix_new _ _ _ _ _ _ _).symm)⟩

/-- Claim C14. Each of the three projection setters changes only
`m_projectionMatrix`: the world transform, the saved starting pose, the cached
view matrix and the dirty flag stay as they were; and no pose mutator and no
`getViewMatrix` call changes `m_projectionMatrix`. -/
theorem projection_view_independent {F : Type} [Field F] (L : Libm F) (c : Camera F)
    (p1 p2 p3 p4 p5 p6 : F) (op : Camera.Op F) :
    ((c.setProjectionSymmetricPerspective L p1 p2 p3 p4).m_world = c.m_world ∧
     (c.setProjectionSymmetricPerspective L p1 p2 p3 p4).m_starting_world =
        c.m_starting_world ∧
     (c.setProjectionSymmetricPerspective L p1 p2 p3 p4).m_viewMatrix = c.m_viewMatrix ∧
     (c.setProjectionSymmetricPerspective L p1 p2 p3 p4).m_update = c.m_update) ∧
    ((c.setProjectionAsymmetricPerspective p1 p2 p3 p4 p5 p6).m_world = c.m_world ∧
     (c.setProjectionAsymmetricPerspective p1 p2 p3 p4 p5 p6).m_starting_world =
        c.m_starting_world ∧
     (c.setProjectionAsymmetricPerspective p1 p2 p3 p4 p5 p6).m_viewMatrix =
        c.m_viewMatrix ∧
     (c.setProjectionAsymmetricPerspective p1 p2 p3 p4 p5 p6).m_update = c.m_update) ∧
    ((c.setProjectionOrthographic p1 p2 p3 p4 p5 p6).m_world = c.m_world ∧
     (c.setProjectionOrthographic p1 p2 p3 p4 p5 p6).m_starting_world =
        c.m_starting_world ∧
     (c.setProjectionOrthographic p1 p2 p3 p4 p5 p6).m_viewMatrix = c.m_viewMatrix ∧
     (c.setProjectionOrthographic p1 p2 p3 p4 p5 p6).m_update = c.m_update) ∧
    (op.isPoseMutator = true ∨ op = Camera.Op.getViewMatrix →
      (c.step L op).m_projectionMatrix = c.m_projectionMatrix) :=
  ⟨⟨rfl, rfl, rfl, rfl⟩, ⟨rfl, rfl, rfl, rfl⟩, ⟨rfl, rfl, rfl, rfl⟩,
   Camera.step_projectionMatrix L c op⟩

theorem projection_view_independent_witness :
    ((Camera.new (⟨Real.sqrt, Real.cos, Real.sin, Real.tan, Real.pi⟩ : Libm ℝ)
        ⟨0, 0, 25⟩ ⟨0, 0, 1⟩ 1 100 1 60).step
        ⟨Real.sqrt, Real.cos, Real.sin, Real.tan, Real.pi⟩
        (Camera.Op.moveBack 2)).m_projectionMatrix =
      (Camera.new (⟨Real.sqrt, Real.cos, Real.sin, Real.tan, Real.pi⟩ : Libm ℝ)
        ⟨0, 0, 25⟩ ⟨0, 0, 1⟩ 1 100 1 60).m_projectionMatrix :=
  (projection_view_independent (⟨Real.sqrt, Real.cos, Real.sin, Real.tan, Real.pi⟩ : Libm ℝ)
    (Camera.new (⟨Real.sqrt, Real.cos, Real.sin, Real.tan, Real.pi⟩ : Libm ℝ)
        ⟨0, 0, 25⟩ ⟨0, 0, 1⟩ 1 100 1 60) 0 0 0 0 0 0 (Camera.Op.moveBack 2)).2.2.2
    (Or.inl rfl)

/-- Claim C11. For every camera over the reals constructed with a non-zero
`localBackDirection` that is not parallel to world Y (`(0,1,0) × back` is
non-zero), after every finite sequence of calls the columns of
`m_world.m_rotScale` are unit length and mutually perpendicular, and the
transform returned by `getViewMatrix` is a two-sided inverse of `m_world`. -/
theorem view_matrix_is_inverse (L : Libm ℝ) (hL : L.IsReal)
    (eyePosition localBackDirection : Vector3 ℝ)
    (nearClip farClip aspectRatio fovDegrees : ℝ)
    (hb : localBackDirection ≠ Vector3.zero)
    (hy : (⟨0, 1, 0⟩ : Vector3 ℝ).cross localBackDirection ≠ Vector3.zero)
    (ops : List (Camera.Op ℝ)) :
    ((Camera.new L eyePosition localBackDirection nearClip farClip aspectRatio
        fovDegrees).run L ops).m_world.m_rotScale.IsOrthonormal Real.sqrt ∧
    ((Camera.new L eyePosition localBackDirection nearClip farClip aspectRatio
        fovDegrees).run L ops).getViewMatrix.1.mul
      ((Camera.new L eyePosition localBackDirection nearClip farClip aspectRatio
        fovDegrees).run L ops).m_world = Transform.identity ∧
    ((Camera.new L eyePosition localBackDirection nearClip farClip aspectRatio
        fovDegrees).run L ops).m_world.mul
      ((Camera.new L eyePosition localBackDirection nearClip farClip aspectRatio
        fovDegrees).run L ops).getViewMatrix.1 = Transform.identity :=
  have h0 := Camera.new_world_dotOrthonormal L hL eyePosition localBackDirection nearClip
    farClip aspectRatio fovDegrees hb hy
  have hw := Camera.run_world_dotOrthonormal L hL ops _ h0 h0
  have hv := Camera.getViewMatrix_fst_of_coherent _ (Camera.run_coherent L ops _
    (Camera.new_coherent L eyePosition localBackDirection nearClip farClip aspectRatio
      fovDegrees))
  ⟨(Matrix3.isOrthonormal_iff_dotOrthonormal _).mpr hw,
   hv ▸ Transform.invertRt_combine_aux _ hw,
   hv ▸ Transform.combine_invertRt_aux _ hw⟩

theorem view_matrix_is_inverse_witness :
    ((Camera.new (⟨Real.sqrt, Real.cos, Real.sin, Real.tan, Real.pi⟩ : Libm ℝ)
        ⟨0, 0, 25⟩ ⟨0, 0, 1⟩ 1 100 1 60).run
        ⟨Real.sqrt, Real.cos, Real.sin, Real.tan, Real.pi⟩
        [Camera.Op.yaw 30, Camera.Op.moveBack 2, Camera.Op.pitch 10]).m_world.m_rotScale.IsOrthonormal
        Real.sqrt ∧
    ((Camera.new (⟨Real.sqrt, Real.cos, Real.sin, Real.tan, Real.pi⟩ : Libm ℝ)
        ⟨0, 0, 25⟩ ⟨0, 0, 1⟩ 1 100 1 60).run
        ⟨Real.sqrt, Real.cos, Real.sin, Real.tan, Real.pi⟩
        [Camera.Op.yaw 30, Camera.Op.moveBack 2, Camera.Op.pitch 10]).getViewMatrix.1.mul
      ((Camera.new (⟨Real.sqrt, Real.cos, Real.sin, Real.tan, Real.pi⟩ : Libm ℝ)
        ⟨0, 0, 25⟩ ⟨0, 0, 1⟩ 1 100 1 60).run
        ⟨Real.sqrt, Real.cos, Real.sin, Real.tan, Real.pi⟩
        [Camera.Op.yaw 30, Camera.Op.moveBack 2, Camera.Op.pitch 10]).m_world =
      Transform.identity ∧
    ((Camera.new (⟨Real.sqrt, Real.cos, Real.sin, Real.tan, Real.pi⟩ : Libm ℝ)
        ⟨0, 0, 25⟩ ⟨0, 0, 1⟩ 1 100 1 60).run
        ⟨Real.sqrt, Real.cos, Real.sin, Real.tan, Real.pi⟩
        [Camera.Op.yaw 30, Camera.Op.moveBack 2, Camera.Op.pitch 10]).m_world.mul
      ((Camera.new (⟨Real.sqrt, Real.cos, Real.sin, Real.tan, Real.pi⟩ : Libm ℝ)
        ⟨0, 0, 25⟩ ⟨0, 0, 1⟩ 1 100 1 60).run
        ⟨Real.sqrt, Real.cos, Real.sin, Real.tan, Real.pi⟩
        [Camera.Op.yaw 30, Camera.Op.moveBack 2, Camera.Op.pitch 10]).getViewMatrix.1 =
      Transform.identity :=
  view_matrix_is_inverse (⟨Real.sqrt, Real.cos, Real.sin, Real.tan, Real.pi⟩ : Libm ℝ)
    ⟨rfl, rfl, rfl, rfl, rfl⟩ ⟨0, 0, 25⟩ ⟨0, 0, 1⟩ 1 100 1 60
    (by
      intro h
      have hz := congrArg Vector3.m_z h
      norm_num [Vector3.zero, Vector3.splat] at hz)
    (by
      intro h
      have hx := congrArg Vector3.m_x h
      norm_num [Vector3.zero, Vector3.splat, Vector3.cross] at hx)
    [Camera.Op.yaw 30, Camera.Op.moveBack 2, Camera.Op.pitch 10]

theorem real_pi_ninety_aux : Real.pi * 90 / 180 = Real.pi / 2 := by ring

theorem Transform.pitch_ne_pre_multiply_aux :
    ((⟨Matrix3.ofScalars 0 1 0 (-1) 0 0 0 0 1, ⟨0, 0, 0⟩⟩ : Transform ℝ).pitch
        Real.cos Real.sin Real.pi 90).m_rotScale ≠
      (Matrix3.zeroInit.setToRotationX Real.cos Real.sin Real.pi 90).mul
        (⟨Matrix3.ofScalars 0 1 0 (-1) 0 0 0 0 1, ⟨0, 0, 0⟩⟩ : Transform ℝ).m_rotScale := by
  intro h
  have hy := congrArg (fun m : Matrix3 ℝ => m.m_right.m_y) h
  simp [Transform.pitch, Matrix3.mul, Matrix3.mulAssign, Matrix3.setToRotationX,
    Matrix3.setToIdentity, Matrix3.ofScalars, real_pi_ninety_aux] at hy

/-- Claim C15. For every transform, angle, axis and scale factors: `rotateWorld`
and both `scaleWorld` set `m_rotScale` to `L * m_rotScale` and `m_position` to
`L * m_position`, where `L` is the matrix built by `setFromAngleAxis`, resp.
`setToScale`; `rotateLocal` and both `scaleLocal` set `m_rotScale` to
`m_rotScale * L` and leave `m_position` as it was. -/
theorem world_versus_local {F : Type} [Field F] (sqrt cos sin : F → F) (pi : F)
    (t : Transform F) (angleDegrees : F) (axis : Vector3 F) (scale scaleX scaleY scaleZ : F) :
    (t.rotateWorld sqrt cos sin pi angleDegrees axis =
      ⟨(Matrix3.zeroInit.setFromAngleAxis sqrt cos sin pi angleDegrees axis).mul t.m_rotScale,
       (Matrix3.zeroInit.setFromAngleAxis sqrt cos sin pi angleDegrees axis).mulVec
          t.m_position⟩) ∧
    (t.scaleWorld scale =
      ⟨(Matrix3.zeroInit.setToScale scale).mul t.m_rotScale,
       (Matrix3.zeroInit.setToScale scale).mulVec t.m_position⟩) ∧
    (t.scaleWorld3 scaleX scaleY scaleZ =
      ⟨(Matrix3.zeroInit.setToScale3 scaleX scaleY scaleZ).mul t.m_rotScale,
       (Matrix3.zeroInit.setToScale3 scaleX scaleY scaleZ).mulVec t.m_position⟩) ∧
    (t.rotateLocal sqrt cos sin pi angleDegrees axis =
      ⟨t.m_rotScale.mul (Matrix3.zeroInit.setFromAngleAxis sqrt cos sin pi angleDegrees axis),
       t.m_position⟩) ∧
    (t.scaleLocal scale = ⟨t.m_rotScale.mul (Matrix3.zeroInit.setToScale scale), t.m_position⟩) ∧
    (t.scaleLocal3 scaleX scaleY scaleZ =
      ⟨t.m_rotScale.mul (Matrix3.zeroInit.setToScale3 scaleX scaleY scaleZ), t.m_position⟩) ∧
    (∀ (m : Matrix3 F) (v : Vector3 F), m.mulVec v = m.transform v) :=
  ⟨rfl, rfl, rfl, rfl, rfl, rfl, Matrix3.mulVec_eq_transform⟩

/-- Claim C17. For every transform and angle, `pitch`, `yaw` and `roll` replace
`m_rotScale` by `m_rotScale * R`, where `R` is the matrix built by
`setToRotationX`, `setToRotationY`, `setToRotationZ` of that angle, and leave
`m_position` as it was; the order matters: over the reals there is a transform
whose `pitch` differs from `R * m_rotScale`. -/
theorem pitch_yaw_roll_post_multiply {F : Type} [Field F] (cos sin : F → F) (pi : F)
    (t : Transform F) (angleDegrees : F) :
    (t.pitch cos sin pi angleDegrees =
      ⟨t.m_rotScale.mul (Matrix3.zeroInit.setToRotationX cos sin pi angleDegrees),
       t.m_position⟩) ∧
    (t.yaw cos sin pi angleDegrees =
      ⟨t.m_rotScale.mul (Matrix3.zeroInit.setToRotationY cos sin pi angleDegrees),
       t.m_position⟩) ∧
    (t.roll cos sin pi angleDegrees =
      ⟨t.m_rotScale.mul (Matrix3.zeroInit.setToRotationZ cos sin pi angleDegrees),
       t.m_position⟩) ∧
    (∃ (u : Transform ℝ) (a : ℝ),
      (u.pitch Real.cos Real.sin Real.pi a).m_rotScale ≠
        (Matrix3.zeroInit.setToRotationX Real.cos Real.sin Real.pi a).mul u.m_rotScale) :=
  ⟨rfl, rfl, rfl, ⟨⟨Matrix3.ofScalars 0 1 0 (-1) 0 0 0 0 1, ⟨0, 0, 0⟩⟩, 90,
    Transform.pitch_ne_pre_multiply_aux⟩⟩

/-- Claim C20. For all `left ≠ right`, `bottom ≠ top`, `near ≠ far`, the matrix
set by `setToOrthographicProjection`, applied as the column combination
`right * x + up * y + back * z + translation * w`, maps `(left, bottom, -near, 1)`
to `(-1, -1, -1, 1)` and `(right, top, -far, 1)` to `(1, 1, 1, 1)`. -/
theorem orthographic_box_to_ndc {F : Type} [Field F] (this : Matrix4 F)
    (left right bottom top nearPlaneZ farPlaneZ : F)
    (hx : left ≠ right) (hy : bottom ≠ top) (hz : nearPlaneZ ≠ farPlaneZ) :
    (this.setToOrthographicProjection left right bottom top nearPlaneZ farPlaneZ).applyTo
        ⟨left, bottom, -nearPlaneZ, 1⟩ = ⟨-1, -1, -1, 1⟩ ∧
    (this.setToOrthographicProjection left right bottom top nearPlaneZ farPlaneZ).applyTo
        ⟨right, top, -farPlaneZ, 1⟩ = ⟨1, 1, 1, 1⟩ := by
  have h1 : right - left ≠ 0 := sub_ne_zero.mpr (Ne.symm hx)
  have h2 : top - bottom ≠ 0 := sub_ne_zero.mpr (Ne.symm hy)
  have h3 : nearPlaneZ - farPlaneZ ≠ 0 := sub_ne_zero.mpr hz
  constructor <;> ext <;>
    simp only [Matrix4.setToOrthographicProjection, Matrix4.applyTo] <;> field_simp <;> ring

theorem orthographic_box_to_ndc_witness :
    (0 : ℚ) ≠ 4 ∧ (0 : ℚ) ≠ 2 ∧ (1 : ℚ) ≠ 10 ∧
    ((Matrix4.identity.setToOrthographicProjection (0 : ℚ) 4 0 2 1 10).applyTo
        ⟨0, 0, -1, 1⟩ = ⟨-1, -1, -1, 1⟩ ∧
     (Matrix4.identity.setToOrthographicProjection (0 : ℚ) 4 0 2 1 10).applyTo
        ⟨4, 2, -10, 1⟩ = ⟨1, 1, 1, 1⟩) :=
  ⟨by norm_num, by norm_num, by norm_num,
   orthographic_box_to_ndc Matrix4.identity 0 4 0 2 1 10 (by norm_num) (by norm_num)
    (by norm_num)⟩

/-- Claim C16. Starting from the transform with identity orientation and position
`(5,0,0)`, `rotateWorld (90, (0,1,0))` over the reals yields position `(0,0,-5)`
and orientation right `(0,0,-1)`, up `(0,1,0)`, back `(1,0,0)`. -/
theorem rotateWorld_ninety_about_y :
    (⟨Matrix3.identity, ⟨5, 0, 0⟩⟩ : Transform ℝ).rotateWorld Real.sqrt Real.cos Real.sin
        Real.pi 90 ⟨0, 1, 0⟩ =
      ⟨⟨⟨0, 0, -1⟩, ⟨0, 1, 0⟩, ⟨1, 0, 0⟩⟩, ⟨0, 0, -5⟩⟩ := by
  ext <;>
    simp [Transform.rotateWorld, Matrix3.setFromAngleAxis, Matrix3.mul, Matrix3.mulAssign,
      Matrix3.mulVec, Matrix3.identity, Matrix3.ofScalars, Vector3.normalize,
      real_pi_ninety_aux]

/-- Claim C19. For all arguments and whatever the matrix held before, the
symmetric `setToPerspectiveProjection (fov, aspect, near, far)` sets
`right.x = 1 / (aspect * tan (fovRad / 2))`, `up.y = 1 / tan (fovRad / 2)`,
`back.z = (near + far) / (near - far)`, `back.w = -1`,
`translation.z = 2 * far * near / (near - far)` with `fovRad = fov * pi / 180`, and
the other eleven entries to `0`; with `aspect = 1`, `right.x` equals `up.y`; and
over the reals, for `(90, 1, 1, 100)`, both are `1`. -/
theorem perspective_entries {F : Type} [Field F] (tan : F → F) (pi : F) (this : Matrix4 F)
    (fovYDegrees aspectRatio nearPlaneZ farPlaneZ : F) :
    this.setToPerspectiveProjection tan pi fovYDegrees aspectRatio nearPlaneZ farPlaneZ =
      ⟨⟨1 / (aspectRatio * tan ((fovYDegrees * pi / 180) / 2)), 0, 0, 0⟩,
       ⟨0, 1 / tan ((fovYDegrees * pi / 180) / 2), 0, 0⟩,
       ⟨0, 0, (nearPlaneZ + farPlaneZ) / (nearPlaneZ - farPlaneZ), -1⟩,
       ⟨0, 0, 2 * farPlaneZ * nearPlaneZ / (nearPlaneZ - farPlaneZ), 0⟩⟩ ∧
    (this.setToPerspectiveProjection tan pi fovYDegrees 1 nearPlaneZ farPlaneZ).m_right.m_x =
      (this.setToPerspectiveProjection tan pi fovYDegrees 1 nearPlaneZ farPlaneZ).m_up.m_y ∧
    ((Matrix4.identity : Matrix4 ℝ).setToPerspectiveProjection Real.tan Real.pi
        90 1 1 100).m_right.m_x = 1 ∧
    ((Matrix4.identity : Matrix4 ℝ).setToPerspectiveProjection Real.tan Real.pi
        90 1 1 100).m_up.m_y = 1 := by
  have h : (90 : ℝ) * Real.pi / 180 / 2 = Real.pi / 4 := by ring
  refine ⟨rfl, ?_, ?_, ?_⟩
  · simp [Matrix4.setToPerspectiveProjection]
  · simp [Matrix4.setToPerspectiveProjection, h]
  · simp [Matrix4.setToPerspectiveProjection, h]

/-! ## The angle-axis rotation -/

namespace Matrix3

variable {F : Type} [Field F]

theorem determinant_eq_dot_cross (m : Matrix3 F) :
    m.determinant = m.m_right.dot (m.m_up.cross m.m_back) := by
  simp only [determinant, Vector3.dot, Vector3.cross]; ring

theorem setFromAngleAxis_transform_aux (sqrt cos sin : F → F) (pi : F) (this : Matrix3 F)
    (a : F) (axis v : Vector3 F) :
    (this.setFromAngleAxis sqrt cos sin pi a axis).transform v =
      ((Vector3.smul (cos (pi * a / 180)) v).add
        (Vector3.smul (sin (pi * a / 180)) ((axis.normalize sqrt).cross v))).add
        (Vector3.smul ((1 - cos (pi * a / 180)) * (axis.normalize sqrt).dot v)
          (axis.normalize sqrt)) := by
  ext <;> simp only [setFromAngleAxis, transform, Vector3.smul, Vector3.add,
    Vector3.addAssign, Vector3.cross, Vector3.dot] <;> ring

theorem setFromAngleAxis_dotOrthonormal_aux (sqrt cos sin : F → F) (pi : F)
    (this : Matrix3 F) (a : F) (axis : Vector3 F)
    (hk : (axis.normalize sqrt).dot (axis.normalize sqrt) = 1)
    (hcs : cos (pi * a / 180) * cos (pi * a / 180) +
      sin (pi * a / 180) * sin (pi * a / 180) = 1) :
    (this.setFromAngleAxis sqrt cos sin pi a axis).DotOrthonormal := by
  simp only [setFromAngleAxis, DotOrthonormal, Vector3.dot] at hk ⊢
  generalize cos (pi * a / 180) = c at hcs ⊢
  generalize sin (pi * a / 180) = s at hcs ⊢
  generalize axis.normalize sqrt = k at hk ⊢
  obtain ⟨x, y, z⟩ := k
  simp only at hk ⊢
  refine ⟨?_, ?_, ?_, ?_, ?_, ?_⟩
  · linear_combination (x ^ 2 * (1 - c) ^ 2 + s ^ 2) * hk + (1 - x ^ 2) * hcs
  · linear_combination (y ^ 2 * (1 - c) ^ 2 + s ^ 2) * hk + (1 - y ^ 2) * hcs
  · linear_combination (z ^ 2 * (1 - c) ^ 2 + s ^ 2) * hk + (1 - z ^ 2) * hcs
  · linear_combination (x * y * (1 - c) ^ 2) * hk - (x * y) * hcs
  · linear_combination (x * z * (1 - c) ^ 2) * hk - (x * z) * hcs
  · linear_combination (y * z * (1 - c) ^ 2) * hk - (y * z) * hcs

theorem setFromAngleAxis_cross_aux (sqrt cos sin : F → F) (pi : F)
    (this : Matrix3 F) (a : F) (axis : Vector3 F)
    (hk : (axis.normalize sqrt).dot (axis.normalize sqrt) = 1)
    (hcs : cos (pi * a / 180) * cos (pi * a / 180) +
      sin (pi * a / 180) * sin (pi * a / 180) = 1) :
    (this.setFromAngleAxis sqrt cos sin pi a axis).m_up.cross
        (this.setFromAngleAxis sqrt cos sin pi a axis).m_back =
      (this.setFromAngleAxis sqrt cos sin pi a axis).m_right := by
  simp only [setFromAngleAxis, Vector3.dot, Vector3.cross] at hk ⊢
  generalize cos (pi * a / 180) = c at hcs ⊢
  generalize sin (pi * a / 180) = s at hcs ⊢
  generalize axis.normalize sqrt = k at hk ⊢
  obtain ⟨x, y, z⟩ := k
  simp only at hk ⊢
  ext <;> simp only
  · linear_combination ((1 - c) * c) * hk + (x ^ 2) * hcs
  · linear_combination (z * (1 - c) * s) * hk + (x * y) * hcs
  · linear_combination (-(y * (1 - c) * s)) * hk + (x * z) * hcs

theorem setFromAngleAxis_determinant_aux (sqrt cos sin : F → F) (pi : F)
    (this : Matrix3 F) (a : F) (axis : Vector3 F)
    (hk : (axis.normalize sqrt).dot (axis.normalize sqrt) = 1)
    (hcs : cos (pi * a / 180) * cos (pi * a / 180) +
      sin (pi * a / 180) * sin (pi * a / 180) = 1) :
    (this.setFromAngleAxis sqrt cos sin pi a axis).determinant = 1 := by
  rw [determinant_eq_dot_cross, setFromAngleAxis_cross_aux sqrt cos sin pi this a axis hk hcs]
  exact (setFromAngleAxis_dotOrthonormal_aux sqrt cos sin pi this a axis hk hcs).1

theorem setFromAngleAxis_transform_normalize_aux (sqrt cos sin : F → F) (pi : F)
    (this : Matrix3 F) (a : F) (axis : Vector3 F)
    (hk : (axis.normalize sqrt).dot (axis.normalize sqrt) = 1) :
    (this.setFromAngleAxis sqrt cos sin pi a axis).transform (axis.normalize sqrt) =
      axis.normalize sqrt := by
  simp only [setFromAngleAxis, transform, Vector3.dot] at hk ⊢
  generalize cos (pi * a / 180) = c
  generalize sin (pi * a / 180) = s
  generalize axis.normalize sqrt = k at hk ⊢
  obtain ⟨x, y, z⟩ := k
  simp only at hk ⊢
  ext <;> simp only
  · linear_combination (x * (1 - c)) * hk
  · linear_combination (y * (1 - c)) * hk
  · linear_combination (z * (1 - c)) * hk

theorem transform_smul_aux (m : Matrix3 F) (l : F) (v : Vector3 F) :
    m.transform (Vector3.smul l v) = Vector3.smul l (m.transform v) := by
  ext <;> simp only [transform, Vector3.smul] <;> ring

end Matrix3

namespace Vector3

theorem smul_length_normalize (v : Vector3 ℝ) (h : v ≠ zero) :
    smul (v.length Real.sqrt) (v.normalize Real.sqrt) = v := by
  have hp := (length_pos v h).ne'
  rw [normalize_eq_div]
  ext <;> simp only [smul, div] <;> field_simp

theorem length_smul (l : ℝ) (hl : 0 < l) (v : Vector3 ℝ) :
    (smul l v).length Real.sqrt = l * v.length Real.sqrt := by
  have h1 : (smul l v).m_x * (smul l v).m_x + (smul l v).m_y * (smul l v).m_y +
      (smul l v).m_z * (smul l v).m_z =
      (l * l) * (v.m_x * v.m_x + v.m_y * v.m_y + v.m_z * v.m_z) := by
    simp only [smul]; ring
  simp only [length]
  rw [h1, Real.sqrt_mul (mul_self_nonneg l), Real.sqrt_mul_self hl.le]

theorem normalize_smul (l : ℝ) (hl : 0 < l) (v : Vector3 ℝ) (h : v ≠ zero) :
    (smul l v).normalize Real.sqrt = v.normalize Real.sqrt := by
  have hp := (length_pos v h).ne'
  have hl0 := hl.ne'
  rw [normalize_eq_div, normalize_eq_div, length_smul l hl]
  ext <;> simp only [smul, div] <;> field_simp <;> ring

end Vector3

/-- Claim C18. Over the reals, for every angle `a` in degrees and every non-zero
axis, with `k = axis / |axis|`, `c = cos (a * pi / 180)`, `s = sin (a * pi / 180)`,
the matrix `M` set by `setFromAngleAxis` satisfies Rodrigues' formula
`M.transform v = c * v + s * (k × v) + (1 - c) * (k · v) * k` for every `v`; `M` is
orthonormal with determinant `1`; `M.transform axis = axis`; and scaling the axis
by a positive factor gives the same matrix. -/
theorem setFromAngleAxis_is_rotation (this : Matrix3 ℝ) (a : ℝ) (axis : Vector3 ℝ)
    (h : axis ≠ Vector3.zero) :
    (∀ v : Vector3 ℝ,
      (this.setFromAngleAxis Real.sqrt Real.cos Real.sin Real.pi a axis).transform v =
        ((Vector3.smul (Real.cos (a * Real.pi / 180)) v).add
          (Vector3.smul (Real.sin (a * Real.pi / 180))
            ((axis.div (axis.length Real.sqrt)).cross v))).add
          (Vector3.smul
            ((1 - Real.cos (a * Real.pi / 180)) * (axis.div (axis.length Real.sqrt)).dot v)
            (axis.div (axis.length Real.sqrt)))) ∧
    (this.setFromAngleAxis Real.sqrt Real.cos Real.sin Real.pi a axis).IsOrthonormal
      Real.sqrt ∧
    (this.setFromAngleAxis Real.sqrt Real.cos Real.sin Real.pi a axis).determinant = 1 ∧
    (this.setFromAngleAxis Real.sqrt Real.cos Real.sin Real.pi a axis).transform axis =
      axis ∧
    (∀ l : ℝ, 0 < l →
      this.setFromAngleAxis Real.sqrt Real.cos Real.sin Real.pi a (Vector3.smul l axis) =
        this.setFromAngleAxis Real.sqrt Real.cos Real.sin Real.pi a axis) := by
  have e : a * Real.pi / 180 = Real.pi * a / 180 := by ring
  have hk := Vector3.normalize_dot_self axis h
  have hcs := real_cos_sin_aux (Real.pi * a / 180)
  refine ⟨?_, ?_, ?_, ?_, ?_⟩
  · intro v
    rw [e]
    exact Matrix3.setFromAngleAxis_transform_aux Real.sqrt Real.cos Real.sin Real.pi this a
      axis v
  · exact (Matrix3.isOrthonormal_iff_dotOrthonormal _).mpr
      (Matrix3.setFromAngleAxis_dotOrthonormal_aux _ _ _ _ this a axis hk hcs)
  · exact Matrix3.setFromAngleAxis_determinant_aux _ _ _ _ this a axis hk hcs
  · have h1 := Matrix3.setFromAngleAxis_transform_normalize_aux Real.sqrt Real.cos Real.sin
      Real.pi this a axis hk
    have h2 := Matrix3.transform_smul_aux
      (this.setFromAngleAxis Real.sqrt Real.cos Real.sin Real.pi a axis)
      (axis.length Real.sqrt) (axis.normalize Real.sqrt)
    rw [Vector3.smul_length_normalize axis h, h1, Vector3.smul_length_normalize axis h] at h2
    exact h2
  · intro l hl
    simp only [Matrix3.setFromAngleAxis, Vector3.normalize_smul l hl axis h]

theorem setFromAngleAxis_is_rotation_witness :
    (⟨1, 1, 1⟩ : Vector3 ℝ) ≠ Vector3.zero ∧
    (Matrix3.ofScalars (1 : ℝ) 1 1 1 1 1 1 1 1).setFromAngleAxis Real.sqrt Real.cos Real.sin
        Real.pi 45 (Vector3.smul 2 ⟨1, 1, 1⟩) =
      (Matrix3.ofScalars (1 : ℝ) 1 1 1 1 1 1 1 1).setFromAngleAxis Real.sqrt Real.cos Real.sin
        Real.pi 45 ⟨1, 1, 1⟩ ∧
    ((Matrix3.ofScalars (1 : ℝ) 1 1 1 1 1 1 1 1).setFromAngleAxis Real.sqrt Real.cos Real.sin
        Real.pi 45 ⟨1, 1, 1⟩).determinant = 1 ∧
    ((Matrix3.ofScalars (1 : ℝ) 1 1 1 1 1 1 1 1).setFromAngleAxis Real.sqrt Real.cos Real.sin
        Real.pi 45 ⟨1, 1, 1⟩).transform ⟨1, 1, 1⟩ = ⟨1, 1, 1⟩ :=
  have h : (⟨1, 1, 1⟩ : Vector3 ℝ) ≠ Vector3.zero := by
    intro h0
    have hx := congrArg Vector3.m_x h0
    norm_num [Vector3.zero, Vector3.splat] at hx
  ⟨h, (setFromAngleAxis_is_rotation _ 45 ⟨1, 1, 1⟩ h).2.2.2.2 2 (by norm_num),
   (setFromAngleAxis_is_rotation _ 45 ⟨1, 1, 1⟩ h).2.2.1,
   (setFromAngleAxis_is_rotation _ 45 ⟨1, 1, 1⟩ h).2.2.2.1⟩

/-- Claim C21, as stated, fails: for `near = 1`, `far = 10` the `back.z` and
`translation.z` set by `setToOrthographicProjection` are both equal to the
glOrtho values `-2 / (far - near)` and `-(far + near) / (far - near)`. -/
theorem orthographic_z_deviates_counterexample :
    (1 : ℚ) ≠ 10 ∧
    ((Matrix4.identity : Matrix4 ℚ).setToOrthographicProjection 0 4 0 2 1 10).m_back.m_z =
      -2 / (10 - 1) ∧
    ((Matrix4.identity : Matrix4 ℚ).setToOrthographicProjection 0 4 0 2 1 10).m_translation.m_z =
      -(10 + 1) / (10 - 1) := by
  refine ⟨by norm_num, ?_, ?_⟩ <;> norm_num [Matrix4.setToOrthographicProjection]

/-- Claim C21, amended. For `near ≠ far`, the `back.z` and `translation.z` set by
`setToOrthographicProjection` are equal to the glOrtho values
`-2 / (far - near)` and `-(far + near) / (far - near)`. -/
theorem orthographic_z_is_glOrtho {F : Type} [Field F] (this : Matrix4 F)
    (left right bottom top nearPlaneZ farPlaneZ : F) (h : nearPlaneZ ≠ farPlaneZ) :
    (this.setToOrthographicProjection left right bottom top nearPlaneZ farPlaneZ).m_back.m_z =
      -2 / (farPlaneZ - nearPlaneZ) ∧
    (this.setToOrthographicProjection left right bottom top nearPlaneZ
        farPlaneZ).m_translation.m_z =
      -(farPlaneZ + nearPlaneZ) / (farPlaneZ - nearPlaneZ) := by
  have h1 : nearPlaneZ - farPlaneZ ≠ 0 := sub_ne_zero.mpr h
  have h2 : farPlaneZ - nearPlaneZ ≠ 0 := sub_ne_zero.mpr (Ne.symm h)
  constructor <;> simp only [Matrix4.setToOrthographicProjection] <;> field_simp <;> ring

theorem orthographic_z_is_glOrtho_witness :
    (1 : ℚ) ≠ 100 ∧
    ((Matrix4.identity : Matrix4 ℚ).setToOrthographicProjection (-1) 1 (-1) 1 1 100).m_back.m_z =
      -2 / (100 - 1) ∧
    ((Matrix4.identity : Matrix4 ℚ).setToOrthographicProjection (-1) 1 (-1) 1 1
        100).m_translation.m_z = -(100 + 1) / (100 - 1) :=
  ⟨by norm_num, orthographic_z_is_glOrtho Matrix4.identity (-1) 1 (-1) 1 1 100 (by norm_num)⟩

/-- Claim C24. For every non-zero vector over the reals, `normalize` gives a
vector of length exactly `1` that equals `v / |v|` with `|v| > 0`, so that
`dot (v, normalize v) > 0`. -/
theorem normalize_post (v : Vector3 ℝ) (h : v ≠ Vector3.zero) :
    (v.normalize Real.sqrt).length Real.sqrt = 1 ∧
    v.normalize Real.sqrt = v.div (v.length Real.sqrt) ∧
    0 < v.length Real.sqrt ∧
    0 < v.dot (v.normalize Real.sqrt) := by
  have hp := Vector3.length_pos v h
  refine ⟨(Vector3.length_eq_one_iff _).mpr (Vector3.normalize_dot_self v h), rfl, hp, ?_⟩
  rw [Vector3.normalize_eq_div, Vector3.dot_div_aux]
  exact div_pos (Vector3.dot_self_pos v h) hp

theorem normalize_post_witness :
    (⟨11 / 10, 22 / 10, 33 / 10⟩ : Vector3 ℝ) ≠ Vector3.zero ∧
    ((⟨11 / 10, 22 / 10, 33 / 10⟩ : Vector3 ℝ).normalize Real.sqrt).length Real.sqrt = 1 ∧
    0 < (⟨11 / 10, 22 / 10, 33 / 10⟩ : Vector3 ℝ).dot
      ((⟨11 / 10, 22 / 10, 33 / 10⟩ : Vector3 ℝ).normalize Real.sqrt) :=
  have h : (⟨11 / 10, 22 / 10, 33 / 10⟩ : Vector3 ℝ) ≠ Vector3.zero := by
    intro h0
    have hx := congrArg Vector3.m_x h0
    norm_num [Vector3.zero, Vector3.splat] at hx
  ⟨h, (normalize_post _ h).1, (normalize_post _ h).2.2.2⟩

namespace Transform

theorem alignWithWorldY_eq_aux {F : Type} [Field F] (sqrt : F → F) (t : Transform F) :
    t.alignWithWorldY sqrt =
      ⟨⟨(⟨0, 1, 0⟩ : Vector3 F).cross
          ((t.m_rotScale.m_right.cross ⟨0, 1, 0⟩).normalize sqrt),
        ⟨0, 1, 0⟩,
        (t.m_rotScale.m_right.cross ⟨0, 1, 0⟩).normalize sqrt⟩, t.m_position⟩ := rfl

theorem right_cross_y_ne_zero (r : Vector3 ℝ) (h : r.m_x ≠ 0 ∨ r.m_z ≠ 0) :
    r.cross ⟨0, 1, 0⟩ ≠ Vector3.zero := by
  intro h0
  have hx := congrArg Vector3.m_x h0
  have hz := congrArg Vector3.m_z h0
  simp [Vector3.cross, Vector3.zero, Vector3.splat] at hx hz
  rcases h with h | h
  · exact h hz
  · exact h hx

end Transform

/-- Claim C23 at a failing input: the transform with right `(0,0,1)`, up `(1,0,0)`
and back `(0,1,0)` is a rotation (orthonormal columns, determinant `1`) whose back
vector points in the Y direction, and `alignWithWorldY` makes its back vector
`(-1,0,0)`, not `(0,0,1)`. -/
theorem alignWithWorldY_back_along_y :
    (⟨⟨0, 0, 1⟩, ⟨1, 0, 0⟩, ⟨0, 1, 0⟩⟩ : Matrix3 ℝ).IsOrthonormal Real.sqrt ∧
    (⟨⟨0, 0, 1⟩, ⟨1, 0, 0⟩, ⟨0, 1, 0⟩⟩ : Matrix3 ℝ).determinant = 1 ∧
    ((⟨⟨⟨0, 0, 1⟩, ⟨1, 0, 0⟩, ⟨0, 1, 0⟩⟩, ⟨0, 0, 0⟩⟩ : Transform ℝ).alignWithWorldY
        Real.sqrt).getBack = ⟨-1, 0, 0⟩ ∧
    ((⟨⟨⟨0, 0, 1⟩, ⟨1, 0, 0⟩, ⟨0, 1, 0⟩⟩, ⟨0, 0, 0⟩⟩ : Transform ℝ).alignWithWorldY
        Real.sqrt).getBack ≠ ⟨0, 0, 1⟩ := by
  have h : ((⟨⟨⟨0, 0, 1⟩, ⟨1, 0, 0⟩, ⟨0, 1, 0⟩⟩, ⟨0, 0, 0⟩⟩ : Transform ℝ).alignWithWorldY
      Real.sqrt).getBack = ⟨-1, 0, 0⟩ := by
    ext <;> simp [Transform.alignWithWorldY, Transform.getBack, Vector3.cross,
      Vector3.normalize]
  refine ⟨?_, ?_, h, ?_⟩
  · rw [Matrix3.isOrthonormal_iff_dotOrthonormal]
    simp [Matrix3.DotOrthonormal, Vector3.dot]
  · simp [Matrix3.determinant]
  · rw [h]
    intro h0
    have hx := congrArg Vector3.m_x h0
    norm_num at hx

/-- Claim C29. Over the reals, for every angle `a`, `setToRotationX (a)`,
`setToRotationY (a)` and `setToRotationZ (a)` produce exactly the matrices that
`setFromAngleAxis` produces for the axes `(1,0,0)`, `(0,1,0)` and `(0,0,1)`,
whatever the matrices held before; hence `pitch`, `yaw` and `roll` give the same
transform as `rotateLocal` about these axes. -/
theorem rotation_builders_agree (this other : Matrix3 ℝ) (t : Transform ℝ) (a : ℝ) :
    this.setToRotationX Real.cos Real.sin Real.pi a =
      other.setFromAngleAxis Real.sqrt Real.cos Real.sin Real.pi a ⟨1, 0, 0⟩ ∧
    this.setToRotationY Real.cos Real.sin Real.pi a =
      other.setFromAngleAxis Real.sqrt Real.cos Real.sin Real.pi a ⟨0, 1, 0⟩ ∧
    this.setToRotationZ Real.cos Real.sin Real.pi a =
      other.setFromAngleAxis Real.sqrt Real.cos Real.sin Real.pi a ⟨0, 0, 1⟩ ∧
    t.pitch Real.cos Real.sin Real.pi a =
      t.rotateLocal Real.sqrt Real.cos Real.sin Real.pi a ⟨1, 0, 0⟩ ∧
    t.yaw Real.cos Real.sin Real.pi a =
      t.rotateLocal Real.sqrt Real.cos Real.sin Real.pi a ⟨0, 1, 0⟩ ∧
    t.roll Real.cos Real.sin Real.pi a =
      t.rotateLocal Real.sqrt Real.cos Real.sin Real.pi a ⟨0, 0, 1⟩ := by
  have hx : ∀ m n : Matrix3 ℝ, m.setToRotationX Real.cos Real.sin Real.pi a =
      n.setFromAngleAxis Real.sqrt Real.cos Real.sin Real.pi a ⟨1, 0, 0⟩ := by
    intro m n
    ext <;> simp [Matrix3.setToRotationX, Matrix3.setToIdentity, Matrix3.setFromAngleAxis,
      Vector3.normalize]
  have hy : ∀ m n : Matrix3 ℝ, m.setToRotationY Real.cos Real.sin Real.pi a =
      n.setFromAngleAxis Real.sqrt Real.cos Real.sin Real.pi a ⟨0, 1, 0⟩ := by
    intro m n
    ext <;> simp [Matrix3.setToRotationY, Matrix3.setToIdentity, Matrix3.setFromAngleAxis,
      Vector3.normalize]
  have hz : ∀ m n : Matrix3 ℝ, m.setToRotationZ Real.cos Real.sin Real.pi a =
      n.setFromAngleAxis Real.sqrt Real.cos Real.sin Real.pi a ⟨0, 0, 1⟩ := by
    intro m n
    ext <;> simp [Matrix3.setToRotationZ, Matrix3.setToIdentity, Matrix3.setFromAngleAxis,
      Vector3.normalize]
  refine ⟨hx _ _, hy _ _, hz _ _, ?_, ?_, ?_⟩
  · simp only [Transform.pitch, Transform.rotateLocal, Matrix3.mul, hx Matrix3.zeroInit
      Matrix3.zeroInit]
  · simp only [Transform.yaw, Transform.rotateLocal, Matrix3.mul, hy Matrix3.zeroInit
      Matrix3.zeroInit]
  · simp only [Transform.roll, Transform.rotateLocal, Matrix3.mul, hz Matrix3.zeroInit
      Matrix3.zeroInit]

/-- Claim C30. For all `fov`, `aspect`, `near`, `far` with `near ≠ 0`,
`aspect ≠ 0` and `tan (fovRad / 2) ≠ 0`, the symmetric
`setToPerspectiveProjection (fov, aspect, near, far)` produces the same sixteen
entries as the asymmetric `setToPerspectiveProjection (-r, r, -t, t, near, far)`
with `t = near * tan (fovRad / 2)` and `r = aspect * t`, in any field of
characteristic zero. -/
theorem perspective_builders_agree {F : Type} [Field F] [CharZero F] (tan : F → F) (pi : F)
    (this other : Matrix4 F) (fovYDegrees aspectRatio nearPlaneZ farPlaneZ : F)
    (hn : nearPlaneZ ≠ 0) (ha : aspectRatio ≠ 0)
    (ht : tan ((fovYDegrees * pi / 180) / 2) ≠ 0) :
    this.setToPerspectiveProjection tan pi fovYDegrees aspectRatio nearPlaneZ farPlaneZ =
      other.setToPerspectiveProjectionAsymmetric
        (-(aspectRatio * (nearPlaneZ * tan ((fovYDegrees * pi / 180) / 2))))
        (aspectRatio * (nearPlaneZ * tan ((fovYDegrees * pi / 180) / 2)))
        (-(nearPlaneZ * tan ((fovYDegrees * pi / 180) / 2)))
        (nearPlaneZ * tan ((fovYDegrees * pi / 180) / 2))
        nearPlaneZ farPlaneZ := by
  simp only [Matrix4.setToPerspectiveProjection, Matrix4.setToPerspectiveProjectionAsymmetric]
  generalize tan ((fovYDegrees * pi / 180) / 2) = T at ht ⊢
  have h2 : (2 : F) ≠ 0 := two_ne_zero
  ext <;> simp only <;> field_simp <;> ring

theorem perspective_builders_agree_witness :
    (1 : ℝ) ≠ 0 ∧ Real.tan (((90 : ℝ) * Real.pi / 180) / 2) ≠ 0 ∧
    (Matrix4.identity : Matrix4 ℝ).setToPerspectiveProjection Real.tan Real.pi 90 1 1 100 =
      (Matrix4.identity : Matrix4 ℝ).setToPerspectiveProjectionAsymmetric
        (-(1 * (1 * Real.tan (((90 : ℝ) * Real.pi / 180) / 2))))
        (1 * (1 * Real.tan (((90 : ℝ) * Real.pi / 180) / 2)))
        (-(1 * Real.tan (((90 : ℝ) * Real.pi / 180) / 2)))
        (1 * Real.tan (((90 : ℝ) * Real.pi / 180) / 2)) 1 100 :=
  have ht : Real.tan (((90 : ℝ) * Real.pi / 180) / 2) ≠ 0 := by
    have h : (90 : ℝ) * Real.pi / 180 / 2 = Real.pi / 4 := by ring
    rw [h, Real.tan_pi_div_four]
    exact one_ne_zero
  ⟨one_ne_zero, ht,
   perspective_builders_agree Real.tan Real.pi Matrix4.identity Matrix4.identity 90 1 1 100
    one_ne_zero one_ne_zero ht⟩

namespace Transform

theorem alignWithWorldY_of_right_aux (t : Transform ℝ) (c s : ℝ)
    (hr : t.m_rotScale.m_right = ⟨c, 0, -s⟩) (hcs : c * c + s * s = 1) :
    t.alignWithWorldY Real.sqrt = ⟨⟨⟨c, 0, -s⟩, ⟨0, 1, 0⟩, ⟨s, 0, c⟩⟩, t.m_position⟩ := by
  have h1 : s * s + c * c = 1 := by linear_combination hcs
  rw [alignWithWorldY_eq_aux, hr]
  ext <;> simp [Vector3.cross, Vector3.normalize, h1]

theorem yaw_identity_aux (cos sin : ℝ → ℝ) (pi : ℝ) (p : Vector3 ℝ) (a : ℝ) :
    (⟨Matrix3.identity, p⟩ : Transform ℝ).yaw cos sin pi a =
      ⟨⟨⟨cos (pi * a / 180), 0, -sin (pi * a / 180)⟩, ⟨0, 1, 0⟩,
        ⟨sin (pi * a / 180), 0, cos (pi * a / 180)⟩⟩, p⟩ := by
  ext <;> simp [yaw, Matrix3.mulAssign, Matrix3.setToRotationY, Matrix3.setToIdentity,
    Matrix3.identity, Matrix3.ofScalars]

theorem pitch_right_aux {F : Type} [Field F] (cos sin : F → F) (pi : F) (t : Transform F)
    (b : F) : (t.pitch cos sin pi b).m_rotScale.m_right = t.m_rotScale.m_right := by
  ext <;> simp [pitch, Matrix3.mulAssign, Matrix3.setToRotationX, Matrix3.setToIdentity]

theorem pitch_position_aux {F : Type} [Field F] (cos sin : F → F) (pi : F) (t : Transform F)
    (b : F) : (t.pitch cos sin pi b).m_position = t.m_position := rfl

theorem alignWithWorldY_idem_aux (t : Transform ℝ)
    (h : t.m_rotScale.m_right.m_x ≠ 0 ∨ t.m_rotScale.m_right.m_z ≠ 0) :
    (t.alignWithWorldY Real.sqrt).alignWithWorldY Real.sqrt = t.alignWithWorldY Real.sqrt := by
  have hq := right_cross_y_ne_zero _ h
  have hB := Vector3.normalize_dot_self _ hq
  have hy : ((t.m_rotScale.m_right.cross ⟨0, 1, 0⟩).normalize Real.sqrt).m_y = 0 := by
    simp [Vector3.normalize, Vector3.cross]
  have e := alignWithWorldY_eq_aux Real.sqrt t
  generalize (t.m_rotScale.m_right.cross ⟨0, 1, 0⟩).normalize Real.sqrt = B at hB hy e
  obtain ⟨bx, by_, bz⟩ := B
  simp only at hy
  subst hy
  have hcs : bz * bz + bx * bx = 1 := by
    simp only [Vector3.dot] at hB
    linear_combination hB
  have hr : (t.alignWithWorldY Real.sqrt).m_rotScale.m_right = ⟨bz, 0, -bx⟩ := by
    rw [e]
    ext <;> simp [Vector3.cross]
  rw [alignWithWorldY_of_right_aux _ bz bx hr hcs, e]
  ext <;> simp [Vector3.cross]

end Transform

/-- Claim C28. Over the reals, for every position `p` and all angles `a`, `b`,
starting from `Transform (identity, p)`: `yaw (a); pitch (b); alignWithWorldY ()`
yields the same transform as `yaw (a)` alone; `alignWithWorldY` leaves the
pure-yaw transform unchanged; and `alignWithWorldY` is idempotent on these
results, as on every transform whose right vector has a non-zero x or z
component. -/
theorem alignWithWorldY_discards_pitch (p : Vector3 ℝ) (a b : ℝ) :
    ((((⟨Matrix3.identity, p⟩ : Transform ℝ).yaw Real.cos Real.sin Real.pi a).pitch
        Real.cos Real.sin Real.pi b).alignWithWorldY Real.sqrt =
      (⟨Matrix3.identity, p⟩ : Transform ℝ).yaw Real.cos Real.sin Real.pi a) ∧
    (((⟨Matrix3.identity, p⟩ : Transform ℝ).yaw Real.cos Real.sin Real.pi a).alignWithWorldY
        Real.sqrt =
      (⟨Matrix3.identity, p⟩ : Transform ℝ).yaw Real.cos Real.sin Real.pi a) ∧
    (((((⟨Matrix3.identity, p⟩ : Transform ℝ).yaw Real.cos Real.sin Real.pi a).pitch
        Real.cos Real.sin Real.pi b).alignWithWorldY Real.sqrt).alignWithWorldY Real.sqrt =
      (((⟨Matrix3.identity, p⟩ : Transform ℝ).yaw Real.cos Real.sin Real.pi a).pitch
        Real.cos Real.sin Real.pi b).alignWithWorldY Real.sqrt) ∧
    (∀ t : Transform ℝ, t.m_rotScale.m_right.m_x ≠ 0 ∨ t.m_rotScale.m_right.m_z ≠ 0 →
      (t.alignWithWorldY Real.sqrt).alignWithWorldY Real.sqrt =
        t.alignWithWorldY Real.sqrt) := by
  have hcs := real_cos_sin_aux (Real.pi * a / 180)
  have hy := Transform.yaw_identity_aux Real.cos Real.sin Real.pi p a
  have h2 : ((⟨Matrix3.identity, p⟩ : Transform ℝ).yaw Real.cos Real.sin
      Real.pi a).alignWithWorldY Real.sqrt =
      (⟨Matrix3.identity, p⟩ : Transform ℝ).yaw Real.cos Real.sin Real.pi a := by
    rw [Transform.alignWithWorldY_of_right_aux _ _ _ (by rw [hy]) hcs, hy]
  have h1 : (((⟨Matrix3.identity, p⟩ : Transform ℝ).yaw Real.cos Real.sin Real.pi a).pitch
      Real.cos Real.sin Real.pi b).alignWithWorldY Real.sqrt =
      (⟨Matrix3.identity, p⟩ : Transform ℝ).yaw Real.cos Real.sin Real.pi a := by
    rw [Transform.alignWithWorldY_of_right_aux _ _ _
      (by rw [Transform.pitch_right_aux, hy]) hcs, Transform.pitch_position_aux, hy]
  exact ⟨h1, h2, by rw [h1, h2], Transform.alignWithWorldY_idem_aux⟩

theorem alignWithWorldY_discards_pitch_witness :
    ((⟨Matrix3.ofScalars 3 4 0 1 1 1 0 2 5, ⟨7, 8, 9⟩⟩ : Transform ℝ).alignWithWorldY
        Real.sqrt).alignWithWorldY Real.sqrt =
      (⟨Matrix3.ofScalars 3 4 0 1 1 1 0 2 5, ⟨7, 8, 9⟩⟩ : Transform ℝ).alignWithWorldY
        Real.sqrt :=
  (alignWithWorldY_discards_pitch ⟨0, 0, 0⟩ 0 0).2.2.2
    ⟨Matrix3.ofScalars 3 4 0 1 1 1 0 2 5, ⟨7, 8, 9⟩⟩ (Or.inl (by norm_num [Matrix3.ofScalars]))

/-! ## Rotations about the own axes of a pose -/

namespace Vector3

theorem cross_anticomm_aux {F : Type} [Field F] (a b : Vector3 F) :
    a.cross b = (b.cross a).neg := by
  ext <;> simp only [cross, neg] <;> ring

theorem cross_self_aux {F : Type} [Field F] (a : Vector3 F) : a.cross a = ⟨0, 0, 0⟩ := by
  ext <;> simp only [cross] <;> ring

theorem cross_eq_of_frame_aux (r u b : Vector3 ℝ) (hr : r.dot r = 1) (hu : u.dot u = 1)
    (hb : b.dot b = 1) (hub : u.dot b = 0) (hd : r.dot (u.cross b) = 1) :
    u.cross b = r := by
  obtain ⟨rx, ry, rz⟩ := r
  obtain ⟨ux, uy, uz⟩ := u
  obtain ⟨bx, by_, bz⟩ := b
  simp only [dot, cross] at *
  have key : (uy * bz - by_ * uz - rx) ^ 2 + (-(ux * bz - bx * uz) - ry) ^ 2 +
      (ux * by_ - bx * uy - rz) ^ 2 = 0 := by
    linear_combination (bx * bx + by_ * by_ + bz * bz) * hu + hb -
      (ux * bx + uy * by_ + uz * bz) * hub - 2 * hd + hr
  have h1 : (uy * bz - by_ * uz - rx) ^ 2 = 0 := by
    nlinarith [sq_nonneg (uy * bz - by_ * uz - rx), sq_nonneg (-(ux * bz - bx * uz) - ry),
      sq_nonneg (ux * by_ - bx * uy - rz)]
  have h2 : (-(ux * bz - bx * uz) - ry) ^ 2 = 0 := by
    nlinarith [sq_nonneg (uy * bz - by_ * uz - rx), sq_nonneg (-(ux * bz - bx * uz) - ry),
      sq_nonneg (ux * by_ - bx * uy - rz)]
  have h3 : (ux * by_ - bx * uy - rz) ^ 2 = 0 := by
    nlinarith [sq_nonneg (uy * bz - by_ * uz - rx), sq_nonneg (-(ux * bz - bx * uz) - ry),
      sq_nonneg (ux * by_ - bx * uy - rz)]
  have e1 := sub_eq_zero.mp ((pow_eq_zero_iff two_ne_zero).mp h1)
  have e2 := sub_eq_zero.mp ((pow_eq_zero_iff two_ne_zero).mp h2)
  have e3 := sub_eq_zero.mp ((pow_eq_zero_iff two_ne_zero).mp h3)
  ext
  · exact e1
  · exact e2
  · exact e3

end Vector3

namespace Matrix3

theorem cross_of_rotation_aux (m : Matrix3 ℝ) (h : m.DotOrthonormal)
    (hd : m.determinant = 1) :
    m.m_up.cross m.m_back = m.m_right ∧ m.m_back.cross m.m_right = m.m_up ∧
    m.m_right.cross m.m_up = m.m_back := by
  obtain ⟨h1, h2, h3, h4, h5, h6⟩ := h
  have d1 : m.m_right.dot (m.m_up.cross m.m_back) = 1 := by
    rw [← determinant_eq_dot_cross]; exact hd
  have d2 : m.m_up.dot (m.m_back.cross m.m_right) = 1 := by
    rw [← hd]; simp only [determinant, Vector3.dot, Vector3.cross]; ring
  have d3 : m.m_back.dot (m.m_right.cross m.m_up) = 1 := by
    rw [← hd]; simp only [determinant, Vector3.dot, Vector3.cross]; ring
  refine ⟨Vector3.cross_eq_of_frame_aux _ _ _ h1 h2 h3 h6 d1,
    Vector3.cross_eq_of_frame_aux _ _ _ h2 h3 h1 ?_ d2,
    Vector3.cross_eq_of_frame_aux _ _ _ h3 h1 h2 h4 d3⟩
  rw [Vector3.dot_comm_aux]; exact h5

theorem setFromAngleAxis_transform_unit_aux (cos sin : ℝ → ℝ) (pi : ℝ) (this : Matrix3 ℝ)
    (a : ℝ) (k : Vector3 ℝ) (hk : k.dot k = 1) (v : Vector3 ℝ) :
    (this.setFromAngleAxis Real.sqrt cos sin pi a k).transform v =
      ((Vector3.smul (cos (pi * a / 180)) v).add
        (Vector3.smul (sin (pi * a / 180)) (k.cross v))).add
        (Vector3.smul ((1 - cos (pi * a / 180)) * k.dot v) k) := by
  have h := setFromAngleAxis_transform_aux Real.sqrt cos sin pi this a k v
  rw [Vector3.normalize_of_dot_self_eq_one k hk] at h
  exact h

theorem mul_right_aux {F : Type} [Field F] (a m : Matrix3 F) :
    (a.mul m).m_right = a.transform m.m_right := rfl

theorem mul_up_aux {F : Type} [Field F] (a m : Matrix3 F) :
    (a.mul m).m_up = a.transform m.m_up := rfl

theorem mul_back_aux {F : Type} [Field F] (a m : Matrix3 F) :
    (a.mul m).m_back = a.transform m.m_back := rfl

theorem axis_up_mul_aux (m : Matrix3 ℝ) (h : m.DotOrthonormal) (hd : m.determinant = 1)
    (cos sin : ℝ → ℝ) (pi : ℝ) (this other : Matrix3 ℝ) (a : ℝ) :
    (this.setFromAngleAxis Real.sqrt cos sin pi a m.m_up).mul m =
      m.mul (other.setToRotationY cos sin pi a) := by
  obtain ⟨hub, hbr, hru⟩ := cross_of_rotation_aux m h hd
  obtain ⟨h1, h2, h3, h4, h5, h6⟩ := h
  have T := setFromAngleAxis_transform_unit_aux cos sin pi this a m.m_up h2
  apply Matrix3.ext
  · rw [mul_right_aux, mul_right_aux, T, Vector3.cross_anticomm_aux, hru,
      Vector3.dot_comm_aux, h4]
    ext <;> simp [Vector3.smul, Vector3.add, Vector3.addAssign, Vector3.neg, transform,
      setToRotationY, setToIdentity] <;> ring
  · rw [mul_up_aux, mul_up_aux, T, Vector3.cross_self_aux, h2]
    ext <;> simp [Vector3.smul, Vector3.add, Vector3.addAssign, Vector3.neg, transform,
      setToRotationY, setToIdentity] <;> ring
  · rw [mul_back_aux, mul_back_aux, T, hub, h6]
    ext <;> simp [Vector3.smul, Vector3.add, Vector3.addAssign, Vector3.neg, transform,
      setToRotationY, setToIdentity] <;> ring

theorem axis_right_mul_aux (m : Matrix3 ℝ) (h : m.DotOrthonormal) (hd : m.determinant = 1)
    (cos sin : ℝ → ℝ) (pi : ℝ) (this other : Matrix3 ℝ) (a : ℝ) :
    (this.setFromAngleAxis Real.sqrt cos sin pi a m.m_right).mul m =
      m.mul (other.setToRotationX cos sin pi a) := by
  obtain ⟨hub, hbr, hru⟩ := cross_of_rotation_aux m h hd
  obtain ⟨h1, h2, h3, h4, h5, h6⟩ := h
  have T := setFromAngleAxis_transform_unit_aux cos sin pi this a m.m_right h1
  apply Matrix3.ext
  · rw [mul_right_aux, mul_right_aux, T, Vector3.cross_self_aux, h1]
    ext <;> simp [Vector3.smul, Vector3.add, Vector3.addAssign, Vector3.neg, transform,
      setToRotationX, setToIdentity] <;> ring
  · rw [mul_up_aux, mul_up_aux, T, hru, h4]
    ext <;> simp [Vector3.smul, Vector3.add, Vector3.addAssign, Vector3.neg, transform,
      setToRotationX, setToIdentity] <;> ring
  · rw [mul_back_aux, mul_back_aux, T, Vector3.cross_anticomm_aux, hbr, h5]
    ext <;> simp [Vector3.smul, Vector3.add, Vector3.addAssign, Vector3.neg, transform,
      setToRotationX, setToIdentity] <;> ring

theorem axis_back_mul_aux (m : Matrix3 ℝ) (h : m.DotOrthonormal) (hd : m.determinant = 1)
    (cos sin : ℝ → ℝ) (pi : ℝ) (this other : Matrix3 ℝ) (a : ℝ) :
    (this.setFromAngleAxis Real.sqrt cos sin pi a m.m_back).mul m =
      m.mul (other.setToRotationZ cos sin pi a) := by
  obtain ⟨hub, hbr, hru⟩ := cross_of_rotation_aux m h hd
  obtain ⟨h1, h2, h3, h4, h5, h6⟩ := h
  have T := setFromAngleAxis_transform_unit_aux cos sin pi this a m.m_back h3
  apply Matrix3.ext
  · rw [mul_right_aux, mul_right_aux, T, hbr, Vector3.dot_comm_aux, h5]
    ext <;> simp [Vector3.smul, Vector3.add, Vector3.addAssign, Vector3.neg, transform,
      setToRotationZ, setToIdentity] <;> ring
  · rw [mul_up_aux, mul_up_aux, T, Vector3.cross_anticomm_aux, hub, Vector3.dot_comm_aux, h6]
    ext <;> simp [Vector3.smul, Vector3.add, Vector3.addAssign, Vector3.neg, transform,
      setToRotationZ, setToIdentity] <;> ring
  · rw [mul_back_aux, mul_back_aux, T, Vector3.cross_self_aux, h3]
    ext <;> simp [Vector3.smul, Vector3.add, Vector3.addAssign, Vector3.neg, transform,
      setToRotationZ, setToIdentity] <;> ring

end Matrix3

namespace Matrix3

theorem setToRotationX_determinant {F : Type} [Field F] (cos sin : F → F) (pi : F)
    (this : Matrix3 F) (a : F)
    (hcs : cos (pi * a / 180) * cos (pi * a / 180) + sin (pi * a / 180) * sin (pi * a / 180) = 1) :
    (setToRotationX cos sin pi this a).determinant = 1 := by
  simp only [determinant, setToRotationX, setToIdentity]
  linear_combination hcs

theorem setToRotationY_determinant {F : Type} [Field F] (cos sin : F → F) (pi : F)
    (this : Matrix3 F) (a : F)
    (hcs : cos (pi * a / 180) * cos (pi * a / 180) + sin (pi * a / 180) * sin (pi * a / 180) = 1) :
    (setToRotationY cos sin pi this a).determinant = 1 := by
  simp only [determinant, setToRotationY, setToIdentity]
  linear_combination hcs

theorem setToRotationZ_determinant {F : Type} [Field F] (cos sin : F → F) (pi : F)
    (this : Matrix3 F) (a : F)
    (hcs : cos (pi * a / 180) * cos (pi * a / 180) + sin (pi * a / 180) * sin (pi * a / 180) = 1) :
    (setToRotationZ cos sin pi this a).determinant = 1 := by
  simp only [determinant, setToRotationZ, setToIdentity]
  linear_combination hcs

theorem orthonormalize_determinant (m : Matrix3 ℝ) (hb : m.m_back ≠ Vector3.zero)
    (hc : m.m_up.cross m.m_back ≠ Vector3.zero) :
    (m.orthonormalize Real.sqrt).determinant = 1 := by
  have h := orthonormalize_dotOrthonormal m hb hc
  rw [orthonormalize_eq_aux] at h ⊢
  generalize m.m_back.normalize Real.sqrt = B at h ⊢
  generalize (m.m_up.cross B).normalize Real.sqrt = R at h ⊢
  obtain ⟨h1, -, h3, -, h5, -⟩ := h
  simp only at h1 h3 h5
  have hU0 : (B.cross R).dot (B.cross R) = 1 := by
    rw [Vector3.cross_dot_self_aux, h3, h1, Vector3.dot_comm_aux B R, h5]; norm_num
  rw [Vector3.normalize_of_dot_self_eq_one _ hU0]
  have e : (⟨R, B.cross R, B⟩ : Matrix3 ℝ).determinant =
      R.dot R * B.dot B - R.dot B * R.dot B := by
    simp only [determinant, Vector3.dot, Vector3.cross]; ring
  rw [e, h1, h3, h5]; norm_num

end Matrix3

namespace Camera

theorem step_world_determinant (L : Libm ℝ) (hL : L.IsReal) (c : Camera ℝ) (op : Op ℝ)
    (hs : c.m_starting_world.m_rotScale.determinant = 1)
    (hw : c.m_world.m_rotScale.determinant = 1) :
    (c.step L op).m_world.m_rotScale.determinant = 1 := by
  obtain ⟨hsq, hcos, hsin, htan, hpi⟩ := hL
  have hcs : ∀ a : ℝ, L.cos (L.pi * a / 180) * L.cos (L.pi * a / 180) +
      L.sin (L.pi * a / 180) * L.sin (L.pi * a / 180) = 1 := by
    intro a; rw [hcos, hsin]; exact real_cos_sin_aux _
  cases op
  case getViewMatrix =>
    rw [show (c.step L Op.getViewMatrix) = c.getViewMatrix.2 from rfl, getViewMatrix_world]
    exact hw
  case yaw a =>
    exact (Matrix3.determinant_mul_aux _ _).trans
      (by rw [hw, Matrix3.setToRotationY_determinant _ _ _ _ _ (hcs a), mul_one])
  case pitch a =>
    exact (Matrix3.determinant_mul_aux _ _).trans
      (by rw [hw, Matrix3.setToRotationX_determinant _ _ _ _ _ (hcs a), mul_one])
  case roll a =>
    exact (Matrix3.determinant_mul_aux _ _).trans
      (by rw [hw, Matrix3.setToRotationZ_determinant _ _ _ _ _ (hcs a), mul_one])
  case resetPose => exact hs
  all_goals exact hw

theorem run_world_determinant (L : Libm ℝ) (hL : L.IsReal) (ops : List (Op ℝ))
    (c : Camera ℝ) (hs : c.m_starting_world.m_rotScale.determinant = 1)
    (hw : c.m_world.m_rotScale.determinant = 1) :
    (c.run L ops).m_world.m_rotScale.determinant = 1 := by
  induction ops generalizing c with
  | nil => exact hw
  | cons op ops ih =>
    exact ih (c.step L op) (by rw [step_starting_world]; exact hs)
      (step_world_determinant L hL c op hs hw)

theorem new_world_determinant (L : Libm ℝ) (hL : L.IsReal) (eye back : Vector3 ℝ)
    (n f a v : ℝ) (hb : back ≠ Vector3.zero)
    (hy : (⟨0, 1, 0⟩ : Vector3 ℝ).cross back ≠ Vector3.zero) :
    (new L eye back n f a v).m_world.m_rotScale.determinant = 1 := by
  obtain ⟨hsq, -⟩ := hL
  show (Matrix3.ofUpBack L.sqrt ⟨0, 1, 0⟩ back true).determinant = 1
  rw [hsq]
  exact Matrix3.orthonormalize_determinant ⟨_, ⟨0, 1, 0⟩, back⟩ hb hy

end Camera

/-- Claim C27. For every transform over the reals whose `m_rotScale` is
orthonormal with determinant `1`: `yaw (a)` gives the `m_rotScale` that the
world-space formulation `setFromAngleAxis (a, up) * m_rotScale` gives, and leaves
the up vector and the position unchanged; likewise `pitch (a)` with the right
vector and `roll (a)` with the back vector.  Every camera pose reached from a
constructor whose `localBackDirection` is non-zero and not parallel to world Y is
such a transform. -/
theorem rotations_about_own_axes (t : Transform ℝ) (a : ℝ)
    (ho : t.m_rotScale.IsOrthonormal Real.sqrt) (hd : t.m_rotScale.determinant = 1) :
    ((t.yaw Real.cos Real.sin Real.pi a).m_rotScale =
        (Matrix3.zeroInit.setFromAngleAxis Real.sqrt Real.cos Real.sin Real.pi a t.getUp).mul
          t.m_rotScale ∧
      (t.yaw Real.cos Real.sin Real.pi a).getUp = t.getUp ∧
      (t.yaw Real.cos Real.sin Real.pi a).m_position = t.m_position) ∧
    ((t.pitch Real.cos Real.sin Real.pi a).m_rotScale =
        (Matrix3.zeroInit.setFromAngleAxis Real.sqrt Real.cos Real.sin Real.pi a t.getRight).mul
          t.m_rotScale ∧
      (t.pitch Real.cos Real.sin Real.pi a).getRight = t.getRight ∧
      (t.pitch Real.cos Real.sin Real.pi a).m_position = t.m_position) ∧
    ((t.roll Real.cos Real.sin Real.pi a).m_rotScale =
        (Matrix3.zeroInit.setFromAngleAxis Real.sqrt Real.cos Real.sin Real.pi a t.getBack).mul
          t.m_rotScale ∧
      (t.roll Real.cos Real.sin Real.pi a).getBack = t.getBack ∧
      (t.roll Real.cos Real.sin Real.pi a).m_position = t.m_position) ∧
    (∀ (L : Libm ℝ) (eyePosition localBackDirection : Vector3 ℝ)
        (nearClip farClip aspectRatio fovDegrees : ℝ) (ops : List (Camera.Op ℝ)),
      L.IsReal → localBackDirection ≠ Vector3.zero →
      (⟨0, 1, 0⟩ : Vector3 ℝ).cross localBackDirection ≠ Vector3.zero →
      ((Camera.new L eyePosition localBackDirection nearClip farClip aspectRatio
          fovDegrees).run L ops).m_world.m_rotScale.IsOrthonormal Real.sqrt ∧
      ((Camera.new L eyePosition localBackDirection nearClip farClip aspectRatio
          fovDegrees).run L ops).m_world.m_rotScale.determinant = 1) := by
  have hdo := (Matrix3.isOrthonormal_iff_dotOrthonormal _).mp ho
  refine ⟨⟨?_, ?_, rfl⟩, ⟨?_, ?_, rfl⟩, ⟨?_, ?_, rfl⟩, ?_⟩
  · exact (Matrix3.axis_up_mul_aux t.m_rotScale hdo hd Real.cos Real.sin Real.pi _ _ a).symm
  · ext <;> simp [Transform.yaw, Transform.getUp, Matrix3.mulAssign, Matrix3.setToRotationY,
      Matrix3.setToIdentity]
  · exact (Matrix3.axis_right_mul_aux t.m_rotScale hdo hd Real.cos Real.sin Real.pi _ _ a).symm
  · ext <;> simp [Transform.pitch, Transform.getRight, Matrix3.mulAssign,
      Matrix3.setToRotationX, Matrix3.setToIdentity]
  · exact (Matrix3.axis_back_mul_aux t.m_rotScale hdo hd Real.cos Real.sin Real.pi _ _ a).symm
  · ext <;> simp [Transform.roll, Transform.getBack, Matrix3.mulAssign,
      Matrix3.setToRotationZ, Matrix3.setToIdentity]
  · intro L eye back n f asp v ops hL hb hy
    have h0 := Camera.new_world_dotOrthonormal L hL eye back n f asp v hb hy
    have d0 := Camera.new_world_determinant L hL eye back n f asp v hb hy
    exact ⟨(Matrix3.isOrthonormal_iff_dotOrthonormal _).mpr
      (Camera.run_world_dotOrthonormal L hL ops _ h0 h0),
      Camera.run_world_determinant L hL ops _ d0 d0⟩

theorem rotations_about_own_axes_witness :
    (Matrix3.ofScalars (3/5) (4/5) 0 (-4/5) (3/5) 0 0 0 1 : Matrix3 ℝ).IsOrthonormal
      Real.sqrt ∧
    (Matrix3.ofScalars (3/5) (4/5) 0 (-4/5) (3/5) 0 0 0 1 : Matrix3 ℝ).determinant = 1 ∧
    ((⟨Matrix3.ofScalars (3/5) (4/5) 0 (-4/5) (3/5) 0 0 0 1, ⟨1, 2, 3⟩⟩ : Transform ℝ).yaw
        Real.cos Real.sin Real.pi 30).m_rotScale =
      (Matrix3.zeroInit.setFromAngleAxis Real.sqrt Real.cos Real.sin Real.pi 30
        (⟨Matrix3.ofScalars (3/5) (4/5) 0 (-4/5) (3/5) 0 0 0 1, ⟨1, 2, 3⟩⟩ :
          Transform ℝ).getUp).mul
        (⟨Matrix3.ofScalars (3/5) (4/5) 0 (-4/5) (3/5) 0 0 0 1, ⟨1, 2, 3⟩⟩ :
          Transform ℝ).m_rotScale :=
  have ho : (Matrix3.ofScalars (3/5) (4/5) 0 (-4/5) (3/5) 0 0 0 1 :
      Matrix3 ℝ).IsOrthonormal Real.sqrt := by
    rw [Matrix3.isOrthonormal_iff_dotOrthonormal]
    simp only [Matrix3.DotOrthonormal, Matrix3.ofScalars, Vector3.dot]
    norm_num
  have hd : (Matrix3.ofScalars (3/5) (4/5) 0 (-4/5) (3/5) 0 0 0 1 :
      Matrix3 ℝ).determinant = 1 := by
    norm_num [Matrix3.determinant, Matrix3.ofScalars]
  ⟨ho, hd, (rotations_about_own_axes
    ⟨Matrix3.ofScalars (3/5) (4/5) 0 (-4/5) (3/5) 0 0 0 1, ⟨1, 2, 3⟩⟩ 30 ho hd).1.1⟩

end ComputerGraphics
